import Mathlib

/-!
# Field access layer (`proto/pointer_unsafe.go`) and custom scalar codecs (`test/custom/custom.go`)

A shallow embedding of the Go sources.

* The typed Go heap is split by element type.  The storage that the three pooled
  `Set` functions touch is, for each width, the heap of `uintW` cells, the `*uintW`
  fields of the records, and the pool slice `o.uintWs` of the `Buffer`.
* Raw memory (for `copyUintPtr`) is a map from byte addresses to bytes, with
  `uintptr` arithmetic taken modulo `2 ^ 64`.
* The slice headers that live in records (for `appendStructPointer`) are kept in a map of
  their own, by address, apart from the bytes of the element stores.
* An inline `uintW` field is a cell of the `uintW` heap, like the cells of the pool.
* A Go slice value whose backing store is not shared is a `List`; a slice that may
  be `nil` is an `Option (List _)`.
* A run-time panic (index out of range, nil dereference) is the result `none`.
-/

namespace Proto

/-! ## Pooled boxed scalars: `wordW_IsNil`, `wordW_Set`, `wordW_Get` -/

/-- A slice header over the cell heap: the address of element `0` and the length
(`o.uint32s[1:]` moves `base` up by one and `len` down by one). -/
structure Slice where
  base : Nat
  len : Nat
deriving DecidableEq, Repr

/-- The part of the program state that the width-`W` accessors touch:
`cells` is the heap of all `uintW` cells allocated so far, indexed by cell address;
`fields p` is the content of the `*uintW` field at address `p` (`none` is `nil`);
`pool` is the slice `o.uintWs` of the `Buffer` `o`. -/
structure WordStore where
  cells : List Nat
  fields : Nat → Option Nat
  pool : Slice

/-- The Go invariant of the slice `o.uintWs`: its elements lie inside allocated cells. -/
def WordStore.WF (s : WordStore) : Prop :=
  s.pool.base + s.pool.len ≤ s.cells.length

instance (s : WordStore) : Decidable s.WF := by
  unfold WordStore.WF; infer_instance

/-- The statement `if len(o.uintWs) == 0 { o.uintWs = make([]uintW, poolSize) }`:
a fresh zeroed array of `poolSize` cells is allocated at the end of the heap. -/
def replenish (poolSize : Nat) (s : WordStore) : WordStore :=
  if s.pool.len = 0 then
    { s with cells := s.cells ++ List.replicate poolSize 0,
             pool := ⟨s.cells.length, poolSize⟩ }
  else s

/-- The body shared by `word16_Set`, `word32_Set` and `word64_Set`:
```
if len(o.uintWs) == 0 { o.uintWs = make([]uintW, uintWPoolSize) }
o.uintWs[0] = x
*p = &o.uintWs[0]
o.uintWs = o.uintWs[1:]
```
`none` is the index-out-of-range panic of `o.uintWs[0]` on an empty slice. -/
def wordW_Set (poolSize : Nat) (p : Nat) (x : Nat) (s : WordStore) : Option WordStore :=
  let s1 := replenish poolSize s
  if s1.pool.len = 0 then none
  else
    some { cells := s1.cells.set s1.pool.base x,
           fields := fun q => if q = p then some s1.pool.base else s1.fields q,
           pool := ⟨s1.pool.base + 1, s1.pool.len - 1⟩ }

/-- The body shared by `word16_IsNil`, `word32_IsNil`, `word64_IsNil`: `*p == nil`. -/
def wordW_IsNil (p : Nat) (s : WordStore) : Bool :=
  (s.fields p).isNone

/-- The body shared by `word16_Get`, `word32_Get`, `word64_Get`: `**p`;
`none` is the panic of dereferencing a nil (or unallocated) pointer. -/
def wordW_Get (p : Nat) (s : WordStore) : Option Nat :=
  match s.fields p with
  | none => none
  | some a => s.cells[a]?

/-- Source `word16_Set(p, o, x)`, on the 16-bit store, with the constant `uint16PoolSize`. -/
def word16_Set (uint16PoolSize : Nat) (p x : Nat) (s : WordStore) : Option WordStore :=
  wordW_Set uint16PoolSize p x s
/-- Source `word16_IsNil(p)`. -/
def word16_IsNil (p : Nat) (s : WordStore) : Bool := wordW_IsNil p s
/-- Source `word16_Get(p)`. -/
def word16_Get (p : Nat) (s : WordStore) : Option Nat := wordW_Get p s

/-- Source `word32_Set(p, o, x)`, on the 32-bit store, with the constant `uint32PoolSize`. -/
def word32_Set (uint32PoolSize : Nat) (p x : Nat) (s : WordStore) : Option WordStore :=
  wordW_Set uint32PoolSize p x s
/-- Source `word32_IsNil(p)`. -/
def word32_IsNil (p : Nat) (s : WordStore) : Bool := wordW_IsNil p s
/-- Source `word32_Get(p)`. -/
def word32_Get (p : Nat) (s : WordStore) : Option Nat := wordW_Get p s

/-- Source `word64_Set(p, o, x)`, on the 64-bit store, with the constant `uint64PoolSize`. -/
def word64_Set (uint64PoolSize : Nat) (p x : Nat) (s : WordStore) : Option WordStore :=
  wordW_Set uint64PoolSize p x s
/-- Source `word64_IsNil(p)`. -/
def word64_IsNil (p : Nat) (s : WordStore) : Bool := wordW_IsNil p s
/-- Source `word64_Get(p)`. -/
def word64_Get (p : Nat) (s : WordStore) : Option Nat := wordW_Get p s

/-- Running `set(p_i, o, x_i)` for the pairs `(p_i, x_i)` of a list, in order, where
`set` is one of the `wordW_Set` functions; a panic of one call ends the run. -/
def runSets (set : Nat → Nat → WordStore → Option WordStore) :
    List (Nat × Nat) → WordStore → Option WordStore
  | [], s => some s
  | (p, x) :: rest, s =>
    match set p x s with
    | none => none
    | some s1 => runSets set rest s1

/-- The store's watermark: the address of the next cell that a `Set` hands out. -/
def low (s : WordStore) : Nat :=
  if s.pool.len = 0 then s.cells.length else s.pool.base

/-- The field at `p` refers to cell `a`, which holds `x` and lies below the watermark. -/
def Stored (s : WordStore) (p x a : Nat) : Prop :=
  s.fields p = some a ∧ s.cells[a]? = some x ∧ a < low s

/-- A sample store: three allocated cells, the pool slice holds the last one,
the field at address `7` refers to cell `0`. -/
def sampleStore : WordStore :=
  { cells := [11, 0, 0], fields := fun q => if q = 7 then some 0 else none, pool := ⟨2, 1⟩ }

/-! ## Raw byte copy: `copyUintPtr`, `structPointer_Copy` -/

/-- The store `*(*byte)(unsafe.Pointer(a)) = v` on raw memory, a map from byte
addresses to bytes. -/
def writeByte (m : Nat → Nat) (a v : Nat) : Nat → Nat :=
  fun b => if b = a then v else m b

/-- Source `copyUintPtr(oldptr, newptr, size)`:
```
for j := 0; j < size; j++ {
    oldb := (*byte)(unsafe.Pointer(oldptr + uintptr(j)))
    *(*byte)(unsafe.Pointer(newptr + uintptr(j))) = *oldb
}
```
`size` is a Go `int`; the loop runs for `j = 0, ..., size - 1` (not at all when
`size <= 0`), and `uintptr` addition wraps modulo `2 ^ 64`. -/
def copyUintPtr (oldptr newptr : Nat) (size : Int) (m : Nat → Nat) : Nat → Nat :=
  (List.range size.toNat).foldl
    (fun mem j => writeByte mem ((newptr + j) % 2 ^ 64) (mem ((oldptr + j) % 2 ^ 64))) m

/-- Source `structPointer_Copy(oldptr, newptr, size)`: delegates to `copyUintPtr`. -/
def structPointer_Copy (oldptr newptr : Nat) (size : Int) (m : Nat → Nat) : Nat → Nat :=
  copyUintPtr oldptr newptr size m

/-- A sample memory: the byte at address `a` is `a % 251`. -/
def sampleMem : Nat → Nat := fun a => a % 251

/-! ## Dynamic sequences: `Append`, `Len`, `Index` -/

/-- Source `type word16Slice []uint16`. -/
abbrev word16Slice := List Nat
/-- Source `type word32Slice []uint32`. -/
abbrev word32Slice := List Nat
/-- Source `type word64Slice []uint64`. -/
abbrev word64Slice := List Nat
/-- Source `type structPointerSlice []structPointer`; a `structPointer` is an address. -/
abbrev structPointerSlice := List Nat

/-- Source `func (v *word16Slice) Append(x uint16) { *v = append(*v, x) }`. -/
def word16Slice.Append (v : word16Slice) (x : Nat) : word16Slice := v ++ [x]
/-- Source `func (v *word16Slice) Len() int { return len(*v) }`. -/
def word16Slice.Len (v : word16Slice) : Int := v.length
/-- Source `func (v *word16Slice) Index(i int) uint16 { return (*v)[i] }`;
`none` is the index-out-of-range panic. -/
def word16Slice.Index (v : word16Slice) (i : Int) : Option Nat :=
  if i < 0 then none else v[i.toNat]?

/-- Source `func (v *word32Slice) Append(x uint32) { *v = append(*v, x) }`. -/
def word32Slice.Append (v : word32Slice) (x : Nat) : word32Slice := v ++ [x]
/-- Source `func (v *word32Slice) Len() int { return len(*v) }`. -/
def word32Slice.Len (v : word32Slice) : Int := v.length
/-- Source `func (v *word32Slice) Index(i int) uint32 { return (*v)[i] }`;
`none` is the index-out-of-range panic. -/
def word32Slice.Index (v : word32Slice) (i : Int) : Option Nat :=
  if i < 0 then none else v[i.toNat]?

/-- Source `func (v *word64Slice) Append(x uint64) { *v = append(*v, x) }`. -/
def word64Slice.Append (v : word64Slice) (x : Nat) : word64Slice := v ++ [x]
/-- Source `func (v *word64Slice) Len() int { return len(*v) }`. -/
def word64Slice.Len (v : word64Slice) : Int := v.length
/-- Source `func (v *word64Slice) Index(i int) uint64 { return (*v)[i] }`;
`none` is the index-out-of-range panic. -/
def word64Slice.Index (v : word64Slice) (i : Int) : Option Nat :=
  if i < 0 then none else v[i.toNat]?

/-- Source `func (v *structPointerSlice) Append(p structPointer) { *v = append(*v, p) }`. -/
def structPointerSlice.Append (v : structPointerSlice) (p : Nat) : structPointerSlice :=
  v ++ [p]
/-- Source `func (v *structPointerSlice) Len() int { return len(*v) }`. -/
def structPointerSlice.Len (v : structPointerSlice) : Int := v.length
/-- Source `func (v *structPointerSlice) Index(i int) structPointer { return (*v)[i] }`;
`none` is the index-out-of-range panic. -/
def structPointerSlice.Index (v : structPointerSlice) (i : Int) : Option Nat :=
  if i < 0 then none else v[i.toNat]?

/-! ## Field references: `field`, `toField`, `invalidField`, `IsValid` -/

/-- Source `type field uintptr`: the byte offset of a field, a 64-bit number. -/
abbrev field := Nat

/-- The complement `^x` of a `uintptr`: every one of the 64 bits flipped. -/
def uintptrNot (x : Nat) : Nat := 2 ^ 64 - 1 - x % 2 ^ 64

/-- The type `reflect.StructField`, with the one member that `toField` reads. -/
structure StructField where
  Offset : Nat
deriving DecidableEq, Repr

/-- Source `func toField(f *reflect.StructField) field { return field(f.Offset) }`. -/
def toField (f : StructField) : field := f.Offset

/-- Source `const invalidField = ^field(0)`. -/
def invalidField : field := uintptrNot 0

/-- Source `func (f field) IsValid() bool { return f != ^field(0) }`. -/
def field.IsValid (f : field) : Bool := f != uintptrNot 0

/-! ## Inline scalars: `refWordW_Set`, `refWordW_Get` -/

/-- The body shared by `refWord16_Set`, `refWord32_Set` and `refWord64_Set`, where the
inline field is the `uintW` cell at address `p`:
```
if len(o.uintWs) == 0 { o.uintWs = make([]uintW, uintWPoolSize) }
o.uintWs[0] = x
*p = o.uintWs[0]
o.uintWs = o.uintWs[1:]
```
`none` is the panic of `o.uintWs[0]` on an empty slice, or a `p` that is no allocated
cell. -/
def refWordW_Set (poolSize : Nat) (p : Nat) (x : Nat) (s : WordStore) : Option WordStore :=
  let s1 := replenish poolSize s
  if s1.pool.len = 0 then none
  else
    let cells1 := s1.cells.set s1.pool.base x
    match cells1[s1.pool.base]? with
    | none => none
    | some v =>
      if p < cells1.length then
        some { cells := cells1.set p v,
               fields := s1.fields,
               pool := ⟨s1.pool.base + 1, s1.pool.len - 1⟩ }
      else none

/-- The body shared by `refWord16_Get`, `refWord32_Get`, `refWord64_Get`: `*p`;
`none` when `p` is no allocated cell. -/
def refWordW_Get (p : Nat) (s : WordStore) : Option Nat :=
  s.cells[p]?

/-- Source `refWord16_Set(p, o, x)`, with the constant `uint16PoolSize`. -/
def refWord16_Set (uint16PoolSize : Nat) (p x : Nat) (s : WordStore) : Option WordStore :=
  refWordW_Set uint16PoolSize p x s
/-- Source `refWord16_Get(p)`. -/
def refWord16_Get (p : Nat) (s : WordStore) : Option Nat := refWordW_Get p s

/-- Source `refWord32_Set(p, o, x)`, with the constant `uint32PoolSize`. -/
def refWord32_Set (uint32PoolSize : Nat) (p x : Nat) (s : WordStore) : Option WordStore :=
  refWordW_Set uint32PoolSize p x s
/-- Source `refWord32_Get(p)`. -/
def refWord32_Get (p : Nat) (s : WordStore) : Option Nat := refWordW_Get p s

/-- Source `refWord64_Set(p, o, x)`, with the constant `uint64PoolSize`. -/
def refWord64_Set (uint64PoolSize : Nat) (p x : Nat) (s : WordStore) : Option WordStore :=
  refWordW_Set uint64PoolSize p x s
/-- Source `refWord64_Get(p)`. -/
def refWord64_Get (p : Nat) (s : WordStore) : Option Nat := refWordW_Get p s

/-- The effect on the pool in words: allocate a fresh batch first when the pool is empty,
write `x` into the first cell of the pool, and advance the pool by one cell.  The result is
the store afterwards; pointer fields are not touched. -/
def consumeCell (poolSize : Nat) (x : Nat) (s : WordStore) : Option WordStore :=
  let s1 := replenish poolSize s
  if s1.pool.len = 0 then none
  else some { s1 with cells := s1.cells.set s1.pool.base x,
                      pool := ⟨s1.pool.base + 1, s1.pool.len - 1⟩ }

/-- A sample store with an inline field: cell `0` belongs to a record, cells `1` and `2`
to the pool, whose slice holds the last one. -/
def sampleInlineStore : WordStore :=
  { cells := [5, 11, 0], fields := fun _ => none, pool := ⟨2, 1⟩ }

/-! ## Growing a sequence of records: `appendStructPointer` -/

/-- The type `reflect.SliceHeader`: `Data uintptr`, `Len int`, `Cap int`. -/
structure SliceHeader where
  Data : Nat
  Len : Int
  Cap : Int
deriving DecidableEq, Repr

/-- Raw memory with the slice headers that live in records: `mem` maps a byte address to
the byte there, `headers a` is the slice header stored at address `a`.  The headers are
kept apart from the bytes of the element stores. -/
structure RawHeap where
  mem : Nat → Nat
  headers : Nat → SliceHeader

/-- Source `structPointer_GetSliceHeader(p, f)`: the address `uintptr(p) + uintptr(f)` of
the slice header of field `f`. -/
def structPointer_GetSliceHeader (p : Nat) (f : field) : Nat :=
  (p + f) % 2 ^ 64

/-- The conversion `int(x)` of a `uintptr` to a 64-bit `int`. -/
def intOfUintptr (x : Nat) : Int :=
  if x % 2 ^ 64 < 2 ^ 63 then (x % 2 ^ 64 : Nat) else ((x % 2 ^ 64 : Nat) : Int) - 2 ^ 64

/-- The conversion `uintptr(z)` of an `int` to a `uintptr`. -/
def uintptrOfInt (z : Int) : Nat :=
  (z % 2 ^ 64).toNat

/-- The memory after `reflect.MakeSlice` has handed out a backing store of `bytes` zero
bytes at the address `bas`. -/
def makeSliceMem (bas bytes : Nat) (m : Nat → Nat) : Nat → Nat :=
  fun a => if bas ≤ a ∧ a < bas + bytes then 0 else m a

/-- Source `appendStructPointer(base, f, typ)`, where `size` is `typ.Elem().Size()` and
`bas` is the address of the backing store that `reflect.MakeSlice(typ, newLen, newLen)`
allocates:
```
oldHeader := structPointer_GetSliceHeader(base, f)
newLen := oldHeader.Len + 1
slice := reflect.MakeSlice(typ, newLen, newLen)
bas := toStructPointer(slice)
for i := 0; i < oldHeader.Len; i++ {
    newElemptr := uintptr(bas) + uintptr(i)*size
    oldElemptr := oldHeader.Data + uintptr(i)*size
    copyUintPtr(oldElemptr, newElemptr, int(size))
}
oldHeader.Data = uintptr(bas)
oldHeader.Len = newLen
oldHeader.Cap = newLen
return structPointer(unsafe.Pointer(uintptr(unsafe.Pointer(bas)) + uintptr(uintptr(newLen-1)*size)))
```
`oldHeader` points at the header in the record, so the three assignments change the
record.  `none` is the panic of `MakeSlice` on a length that is negative, also after the
64-bit `int` addition has wrapped.  The result is the heap afterwards and the returned
pointer. -/
def appendStructPointer (base : Nat) (f : field) (size : Nat) (bas : Nat) (h : RawHeap) :
    Option (RawHeap × Nat) :=
  let hp := structPointer_GetSliceHeader base f
  let oldHeader := h.headers hp
  let newLen : Int := oldHeader.Len + 1
  if newLen < 0 ∨ 2 ^ 63 ≤ newLen then none
  else
    let m0 := makeSliceMem bas (newLen.toNat * size) h.mem
    let m1 := (List.range oldHeader.Len.toNat).foldl
      (fun m i => copyUintPtr ((oldHeader.Data + (i * size) % 2 ^ 64) % 2 ^ 64)
        ((bas + (i * size) % 2 ^ 64) % 2 ^ 64) (intOfUintptr size) m) m0
    some ({ mem := m1,
            headers := fun a => if a = hp then ⟨bas, newLen, newLen⟩ else h.headers a },
          (bas + (uintptrOfInt (newLen - 1) * size) % 2 ^ 64) % 2 ^ 64)

/-- A sample heap: the byte at address `a` is `a % 251`, and the record at address `64` has
at offset `8` the header of a sequence of two 4-byte elements stored at address `1000`. -/
def sampleHeap : RawHeap :=
  { mem := fun a => a % 251,
    headers := fun a => if a = 72 then ⟨1000, 2, 2⟩ else ⟨0, 0, 0⟩ }

end Proto

namespace Custom

/-! ## Custom scalar codecs (`test/custom/custom.go`)

A Go `string` and a Go `[]byte` are lists of bytes (numbers below `256`); a `*string`
or a `[]byte` that may be `nil` is an `Option`.  A method with a pointer receiver
`func (u *T) F(..) error` is a function of the value the receiver points to, and gives back
the value it points to afterwards together with the returned error (`none` is `nil`).
Where a function can panic, the whole result is an `Option` and `none` is the panic. -/

/-- The error values the package returns. -/
inductive Error where
  /-- Source `errors.New("Uint128 Parse Error")`. -/
  | uint128Parse
  /-- A `*strconv.NumError` with `strconv.ErrSyntax`. -/
  | errSyntax
  /-- A `*strconv.NumError` with `strconv.ErrRange`. -/
  | errRange
  /-- Source `errTooLargeUint16`. -/
  | errTooLargeUint16
  /-- Source `syscall.EINVAL`. -/
  | EINVAL
deriving DecidableEq, Repr

/-- The statement `b[i] = v` on a byte slice; `none` is the index-out-of-range panic. -/
def setIndex (b : List Nat) (i v : Nat) : Option (List Nat) :=
  if i < b.length then some (b.set i v) else none

/-- The length `len(data)` of a slice that may be `nil`. -/
def sliceLen (data : Option (List Nat)) : Nat :=
  match data with
  | none => 0
  | some d => d.length

/-! ### `Uint128` -/

/-- Source `type Uint128 [2]uint64`. -/
abbrev Uint128 := Nat × Nat

/-- Both components are 64-bit values. -/
def Uint128.InRange (u : Uint128) : Prop := u.1 < 2 ^ 64 ∧ u.2 < 2 ^ 64

/-- Source `GetLittleEndianUint64(b, offset)`: `*(*uint64)(unsafe.Pointer(&b[offset]))`,
the eight bytes from `b[offset]` on, read as a little-endian number.  `none` is the panic of
`&b[offset]`, and also a read that runs past the end of the slice, whose bytes the slice
does not determine. -/
def GetLittleEndianUint64 (b : List Nat) (offset : Nat) : Option Nat := do
  let b0 ← b[offset]?
  let b1 ← b[offset + 1]?
  let b2 ← b[offset + 2]?
  let b3 ← b[offset + 3]?
  let b4 ← b[offset + 4]?
  let b5 ← b[offset + 5]?
  let b6 ← b[offset + 6]?
  let b7 ← b[offset + 7]?
  some (b0 + b1 * 2 ^ 8 + b2 * 2 ^ 16 + b3 * 2 ^ 24 + b4 * 2 ^ 32 + b5 * 2 ^ 40
    + b6 * 2 ^ 48 + b7 * 2 ^ 56)

/-- Source `PutLittleEndianUint64(b, offset, v)`: `b[offset] = byte(v)`,
`b[offset+1] = byte(v >> 8)`, ..., `b[offset+7] = byte(v >> 56)`. -/
def PutLittleEndianUint64 (b : List Nat) (offset v : Nat) : Option (List Nat) := do
  let b ← setIndex b offset (v % 256)
  let b ← setIndex b (offset + 1) ((v >>> 8) % 256)
  let b ← setIndex b (offset + 2) ((v >>> 16) % 256)
  let b ← setIndex b (offset + 3) ((v >>> 24) % 256)
  let b ← setIndex b (offset + 4) ((v >>> 32) % 256)
  let b ← setIndex b (offset + 5) ((v >>> 40) % 256)
  let b ← setIndex b (offset + 6) ((v >>> 48) % 256)
  setIndex b (offset + 7) ((v >>> 56) % 256)

/-- Source `PutLittleEndianUint128(buffer, offset, v)`. -/
def PutLittleEndianUint128 (buffer : List Nat) (offset : Nat) (v : Uint128) :
    Option (List Nat) := do
  let buffer ← PutLittleEndianUint64 buffer offset v.1
  PutLittleEndianUint64 buffer (offset + 8) v.2

/-- Source `GetLittleEndianUint128(buffer, offset)`. -/
def GetLittleEndianUint128 (buffer : List Nat) (offset : Nat) : Option Uint128 := do
  let v0 ← GetLittleEndianUint64 buffer offset
  let v1 ← GetLittleEndianUint64 buffer (offset + 8)
  some (v0, v1)

/-- Source `func (u Uint128) MarshalToBytes() ([]byte, error)`. -/
def Uint128.MarshalToBytes (u : Uint128) : Option (List Nat × Option Error) := do
  let buffer ← PutLittleEndianUint128 (List.replicate 16 0) 0 u
  some (buffer, none)

/-- Source `func (u *Uint128) UnmarshalFromBytes(data []byte) error`:
```
if data == nil { u = nil; return nil }
if len(data) == 0 { pu := Uint128{}; *u = pu; return nil }
pu := Uint128(GetLittleEndianUint128(data, 0)); *u = pu; return nil
```
The assignment `u = nil` changes the local pointer only. -/
def Uint128.UnmarshalFromBytes (u : Uint128) (data : Option (List Nat)) :
    Option (Uint128 × Option Error) :=
  match data with
  | none => some (u, none)
  | some d =>
    if d.length = 0 then some ((0, 0), none)
    else
      match GetLittleEndianUint128 d 0 with
      | none => none
      | some pu => some (pu, none)

/-! ### `Uint16` -/

/-- Source `GetLittleEndianUint16(b, offset)`: `*(*uint16)(unsafe.Pointer(&b[offset]))`,
read as a little-endian number; `none` as for `GetLittleEndianUint64`. -/
def GetLittleEndianUint16 (b : List Nat) (offset : Nat) : Option Nat := do
  let b0 ← b[offset]?
  let b1 ← b[offset + 1]?
  some (b0 + b1 * 2 ^ 8)

/-- Source `PutLittleEndianUint16(b, offset, v)`. -/
def PutLittleEndianUint16 (b : List Nat) (offset v : Nat) : Option (List Nat) := do
  let b ← setIndex b offset (v % 256)
  setIndex b (offset + 1) ((v >>> 8) % 256)

/-- Source `func (u Uint16) MarshalToBytes() ([]byte, error)`. -/
def Uint16.MarshalToBytes (u : Nat) : Option (List Nat × Option Error) := do
  let buffer ← PutLittleEndianUint16 (List.replicate 2 0) 0 u
  some (buffer, none)

/-- Source `func (u *Uint16) UnmarshalFromBytes(data []byte) error`:
```
if data == nil { u = nil; return nil }
if len(data) == 0 { pu := Uint16(0); *u = pu; return nil }
pu := Uint16(GetLittleEndianUint16(data, 0)); *u = pu; return nil
``` -/
def Uint16.UnmarshalFromBytes (u : Nat) (data : Option (List Nat)) :
    Option (Nat × Option Error) :=
  match data with
  | none => some (u, none)
  | some d =>
    if d.length = 0 then some (0, none)
    else
      match GetLittleEndianUint16 d 0 with
      | none => none
      | some pu => some (pu, none)

/-- Source `func (u Uint16) MarshalToUint32() (*uint32, error)`: `u32 := uint32(u)`. -/
def Uint16.MarshalToUint32 (u : Nat) : Option Nat × Option Error :=
  (some u, none)

/-- Source `func (u *Uint16) UnmarshalFromUint32(data *uint32) error`:
```
if data == nil { return nil }
if *data > math.MaxUint16 { return errTooLargeUint16 }
u16 := Uint16(*data); *u = u16; return nil
``` -/
def Uint16.UnmarshalFromUint32 (u : Nat) (data : Option Nat) : Nat × Option Error :=
  match data with
  | none => (u, none)
  | some d =>
    if d > 65535 then (u, some Error.errTooLargeUint16)
    else (d % 2 ^ 16, none)

/-! ### `Uuid` -/

/-- Source `type Uuid []byte`; `none` is the `nil` slice. -/
abbrev Uuid := Option (List Nat)

/-- The rune and the width in bytes that Go's `for i, c := range str` yields at the head of
a non-empty string: the UTF-8 decoding of its first bytes, with `(0xFFFD, 1)` for bytes that
are not a well-formed encoding.  A byte below `0x80` is its own rune, of width `1`. -/
def decodeRune : List Nat → Nat × Nat
  | [] => (0xFFFD, 1)
  | b0 :: rest =>
    if b0 < 0x80 then (b0, 1)
    else if 0xC2 ≤ b0 ∧ b0 ≤ 0xDF then
      match rest with
      | b1 :: _ =>
        if 0x80 ≤ b1 ∧ b1 ≤ 0xBF then ((b0 - 0xC0) * 64 + (b1 - 0x80), 2) else (0xFFFD, 1)
      | _ => (0xFFFD, 1)
    else if 0xE0 ≤ b0 ∧ b0 ≤ 0xEF then
      match rest with
      | b1 :: b2 :: _ =>
        if (if b0 = 0xE0 then 0xA0 else 0x80) ≤ b1 ∧ b1 ≤ (if b0 = 0xED then 0x9F else 0xBF)
            ∧ 0x80 ≤ b2 ∧ b2 ≤ 0xBF then
          ((b0 - 0xE0) * 4096 + (b1 - 0x80) * 64 + (b2 - 0x80), 3)
        else (0xFFFD, 1)
      | _ => (0xFFFD, 1)
    else if 0xF0 ≤ b0 ∧ b0 ≤ 0xF4 then
      match rest with
      | b1 :: b2 :: b3 :: _ =>
        if (if b0 = 0xF0 then 0x90 else 0x80) ≤ b1 ∧ b1 ≤ (if b0 = 0xF4 then 0x8F else 0xBF)
            ∧ 0x80 ≤ b2 ∧ b2 ≤ 0xBF ∧ 0x80 ≤ b3 ∧ b3 ≤ 0xBF then
          ((b0 - 0xF0) * 262144 + (b1 - 0x80) * 4096 + (b2 - 0x80) * 64 + (b3 - 0x80), 4)
        else (0xFFFD, 1)
      | _ => (0xFFFD, 1)
    else (0xFFFD, 1)

/-- The digit value that the loop of `Parse` computes from the rune `c`:
```
if c >= '0' && c <= '9' { v = byte(c - '0') }
else if c >= 'a' && c <= 'f' { v = 10 + byte(c-'a') }
else if c >= 'A' && c <= 'F' { v = 10 + byte(c-'A') }
else { return nil, syscall.EINVAL }
```
`none` is the `EINVAL` return. -/
def hexValue (c : Nat) : Option Nat :=
  if 48 ≤ c ∧ c ≤ 57 then some ((c - 48) % 256)
  else if 97 ≤ c ∧ c ≤ 102 then some ((10 + (c - 97) % 256) % 256)
  else if 65 ≤ c ∧ c ≤ 70 then some ((10 + (c - 65) % 256) % 256)
  else none

/-- The loop `for i, c := range str { ... }` of `Parse`, on the rest of the string that
starts at byte index `i`, with the digit counter `j` and the bytes `uuid` written so far:
```
if i == 8 || i == 13 || i == 18 || i == 23 {
    if c != '-' { return nil, syscall.EINVAL }
    continue
}
... v from c ...
if j&0x1 == 0 { uuid[j>>1] = v << 4 } else { uuid[j>>1] |= v }
j++
```
The result `some none` is the return of `nil, EINVAL`, `some (some uuid)` the end of the
loop, and `none` a panic of `uuid[j>>1]`.  The first argument bounds the number of
iterations; the length of the string is always enough, since every rune takes at least one
byte. -/
def parseLoop : Nat → List Nat → Nat → Nat → List Nat → Option (Option (List Nat))
  | _, [], _, _, uuid => some (some uuid)
  | 0, _ :: _, _, _, _ => none
  | fuel + 1, b :: rest, i, j, uuid =>
    let c := (decodeRune (b :: rest)).1
    let w := (decodeRune (b :: rest)).2
    if i = 8 ∨ i = 13 ∨ i = 18 ∨ i = 23 then
      if c ≠ 45 then some none
      else parseLoop fuel ((b :: rest).drop w) (i + w) j uuid
    else
      match hexValue c with
      | none => some none
      | some v =>
        if j &&& 1 = 0 then
          match setIndex uuid (j >>> 1) ((v <<< 4) % 256) with
          | none => none
          | some uuid1 => parseLoop fuel ((b :: rest).drop w) (i + w) (j + 1) uuid1
        else
          match uuid[j >>> 1]? with
          | none => none
          | some old => parseLoop fuel ((b :: rest).drop w) (i + w) (j + 1)
              (uuid.set (j >>> 1) (old ||| v))

/-- Source `func (uuid Uuid) Version() int`:
`if len(uuid) != 16 { panic(..) }; return int(uuid[6] >> 4)`. -/
def Uuid.Version (uuid : Uuid) : Option Nat :=
  match uuid with
  | none => none
  | some b => if b.length ≠ 16 then none else b[6]?.map (fun x => x >>> 4)

/-- Source `func Parse(str string) (Uuid, error)`:
```
if len(str) == 38 {
    if str[0] != '{' || str[37] != '}' { return nil, syscall.EINVAL }
    str = str[1:37]
}
if len(str) != 36 { return nil, syscall.EINVAL }
uuid := make(Uuid, 16)
j := 0
for i, c := range str { ... }
version := uuid.Version()
if version < 1 || version > 5 { return nil, syscall.EINVAL }
return uuid, nil
``` -/
def Parse (str : List Nat) : Option (Uuid × Option Error) :=
  if str.length = 38 ∧ (str[0]? ≠ some 123 ∨ str[37]? ≠ some 125) then
    some (none, some Error.EINVAL)
  else
    let str1 := if str.length = 38 then (str.drop 1).take 36 else str
    if str1.length ≠ 36 then some (none, some Error.EINVAL)
    else
      match parseLoop str1.length str1 0 0 (List.replicate 16 0) with
      | none => none
      | some none => some (none, some Error.EINVAL)
      | some (some uuid) =>
        match Uuid.Version (some uuid) with
        | none => none
        | some version =>
          if version < 1 ∨ version > 5 then some (none, some Error.EINVAL)
          else some (some uuid, none)

/-- The lower-case hexadecimal digit, as a byte, of a number below `16`. -/
def hexDigit (d : Nat) : Nat :=
  if d < 10 then 48 + d else 87 + d

/-- The verb `%x` of `fmt.Sprintf` on a `[]byte`: two lower-case hexadecimal digits for
each byte, the high one first. -/
def hexEncode : List Nat → List Nat
  | [] => []
  | b :: rest => hexDigit (b / 16) :: hexDigit (b % 16) :: hexEncode rest

/-- Source `func (uuid Uuid) String() string`:
```
if len(uuid) == 0 { return "<empty uuid>" }
if len(uuid) != 16 { panic("invalid uuid: not 16 bytes") }
return fmt.Sprintf("%x-%x-%x-%x-%x", []byte(uuid[0:4]), []byte(uuid[4:6]),
    []byte(uuid[6:8]), []byte(uuid[8:10]), []byte(uuid[10:]))
``` -/
def Uuid.String (uuid : Uuid) : Option (List Nat) :=
  let b := uuid.getD []
  if b.length = 0 then some [60, 101, 109, 112, 116, 121, 32, 117, 117, 105, 100, 62]
  else if b.length ≠ 16 then none
  else
    some (hexEncode (b.take 4) ++ [45] ++ hexEncode ((b.drop 4).take 2) ++ [45]
      ++ hexEncode ((b.drop 6).take 2) ++ [45] ++ hexEncode ((b.drop 8).take 2) ++ [45]
      ++ hexEncode (b.drop 10))

/-- Source `func (uuid Uuid) MarshalToString() (*string, error)`:
```
if uuid == nil { return nil, nil }
if len(uuid) == 0 { s := ""; return &s, nil }
id := uuid.String(); return &id, nil
``` -/
def Uuid.MarshalToString (uuid : Uuid) : Option (Option (List Nat) × Option Error) :=
  match uuid with
  | none => some (none, none)
  | some b =>
    if b.length = 0 then some (some [], none)
    else
      match Uuid.String uuid with
      | none => none
      | some id => some (some id, none)

/-- Source `func (uuid *Uuid) UnmarshalFromString(str *string) error`:
```
if str == nil { uuid = nil; return nil }
if len(*str) == 0 { uuid = &Uuid{}; return nil }
id, err := Parse(*str)
if err != nil { return err }
*uuid = id
return nil
```
The assignments `uuid = nil` and `uuid = &Uuid{}` change the local pointer only. -/
def Uuid.UnmarshalFromString (uuid : Uuid) (str : Option (List Nat)) :
    Option (Uuid × Option Error) :=
  match str with
  | none => some (uuid, none)
  | some s =>
    if s.length = 0 then some (uuid, none)
    else
      match Parse s with
      | none => none
      | some (_, some err) => some (uuid, some err)
      | some (id, none) => some (id, none)

/-- The bytes of a text of ASCII characters. -/
def ascii (s : String) : List Nat := s.toList.map Char.toNat

/-! ### What makes a string malformed as a `Uuid` -/

/-- An ASCII hexadecimal digit: `0`-`9`, `a`-`f` or `A`-`F`. -/
def IsHexDigit (b : Nat) : Prop :=
  (48 ≤ b ∧ b ≤ 57) ∨ (97 ≤ b ∧ b ≤ 102) ∨ (65 ≤ b ∧ b ≤ 70)

/-- The indices `8`, `13`, `18`, `23`, where the text of a `Uuid` has a `-`. -/
def IsDashIndex (k : Nat) : Prop :=
  k = 8 ∨ k = 13 ∨ k = 18 ∨ k = 23

/-- The string without its first and last byte when it has length `38`, as `str[1:37]`. -/
def stripBraces (s : List Nat) : List Nat :=
  if s.length = 38 then (s.drop 1).take 36 else s

/-- A string is malformed as a `Uuid` when its length is neither `36` nor `38`, or it has
length `38` and is not enclosed in `{` and `}`, or, after the braces are stripped, a byte at
index `8`, `13`, `18` or `23` is not `-` or a byte at another index is not a hexadecimal
digit. -/
def Malformed (s : List Nat) : Prop :=
  (s.length ≠ 36 ∧ s.length ≠ 38) ∨
  (s.length = 38 ∧ ¬ (s[0]? = some 123 ∧ s[37]? = some 125)) ∨
  (∃ k b, (stripBraces s)[k]? = some b ∧
    ((IsDashIndex k ∧ b ≠ 45) ∨ (¬ IsDashIndex k ∧ ¬ IsHexDigit b)))

/-! ### Text import of `Uint128` and `Uint16`, binary import of `Uuid` -/

/-- Go's `strings.Split(s, sep)` for a separator `sep` of one byte: the substrings of `s`
between the occurrences of `sep`, one more than there are occurrences. -/
def splitByte (sep : Nat) : List Nat → List (List Nat)
  | [] => [[]]
  | c :: rest =>
    if c = sep then [] :: splitByte sep rest
    else
      match splitByte sep rest with
      | [] => [[c]]
      | hd :: tl => (c :: hd) :: tl

/-- The digit loop of Go's `strconv.ParseUint` in base 10, with `n` the number read so far
and `maxVal` the largest value of the bit size: a byte that is no decimal digit gives
`(0, ErrSyntax)`, a number above `maxVal` gives `(maxVal, ErrRange)`. -/
def parseUintLoop (maxVal : Nat) : List Nat → Nat → Nat × Option Error
  | [], n => (n, none)
  | c :: rest, n =>
    if 48 ≤ c ∧ c ≤ 57 then
      if maxVal < n * 10 + (c - 48) then (maxVal, some Error.errRange)
      else parseUintLoop maxVal rest (n * 10 + (c - 48))
    else (0, some Error.errSyntax)

/-- Go's `strconv.ParseUint(s, 10, bitSize)`: the value and the error; the empty string is
a syntax error, and no sign is accepted. -/
def ParseUint (s : List Nat) (bitSize : Nat) : Nat × Option Error :=
  if s.length = 0 then (0, some Error.errSyntax)
  else parseUintLoop (2 ^ bitSize - 1) s 0

/-- Source `func ParseUint128(s string) (u Uint128, err error)`:
```
ss := strings.Split(s, "-")
if len(ss) != 2 { return u, errors.New("Uint128 Parse Error") }
u[0], err = strconv.ParseUint(ss[0], 10, 64)
if err != nil { return u, err }
u[1], err = strconv.ParseUint(ss[1], 10, 64)
if err != nil { return u, err }
return u, nil
``` -/
def ParseUint128 (s : List Nat) : Uint128 × Option Error :=
  match splitByte 45 s with
  | [s0, s1] =>
    match ParseUint s0 64 with
    | (v0, some err) => ((v0, 0), some err)
    | (v0, none) =>
      match ParseUint s1 64 with
      | (v1, some err) => ((v0, v1), some err)
      | (v1, none) => ((v0, v1), none)
  | _ => ((0, 0), some Error.uint128Parse)

/-- Source `func (u *Uint128) UnmarshalFromString(str *string) error`:
```
if str == nil { u = nil; return nil }
if len(*str) == 0 { u = &Uint128{}; return nil }
pu, err := ParseUint128(*str)
if err != nil { return err }
*u = pu
return nil
```
The assignments `u = nil` and `u = &Uint128{}` change the local pointer only. -/
def Uint128.UnmarshalFromString (u : Uint128) (str : Option (List Nat)) :
    Uint128 × Option Error :=
  match str with
  | none => (u, none)
  | some s =>
    if s.length = 0 then (u, none)
    else
      match ParseUint128 s with
      | (_, some err) => (u, some err)
      | (pu, none) => (pu, none)

/-- Source `func ParseUint16(s string) (Uint16, error)`:
`u, err := strconv.ParseUint(s, 10, 16)`, and `Uint16(u)` with the error. -/
def ParseUint16 (s : List Nat) : Nat × Option Error :=
  ((ParseUint s 16).1 % 2 ^ 16, (ParseUint s 16).2)

/-- Source `func (u *Uint16) UnmarshalFromString(str *string) error`:
```
if str == nil { u = nil; return nil }
if len(*str) == 0 { d := Uint16(0); *u = d; return nil }
pu, err := ParseUint16(*str)
if err != nil { return err }
*u = pu
return nil
``` -/
def Uint16.UnmarshalFromString (u : Nat) (str : Option (List Nat)) : Nat × Option Error :=
  match str with
  | none => (u, none)
  | some s =>
    if s.length = 0 then (0, none)
    else
      match ParseUint16 s with
      | (_, some err) => (u, some err)
      | (pu, none) => (pu, none)

/-- Source `func (uuid Uuid) MarshalToBytes() ([]byte, error) { return []byte(uuid), nil }`. -/
def Uuid.MarshalToBytes (uuid : Uuid) : Option (List Nat) × Option Error :=
  (uuid, none)

/-- Source `func (uuid *Uuid) UnmarshalFromBytes(data []byte) error`:
```
if data == nil { uuid = nil; return nil }
id := Uuid(data)
*uuid = id
return nil
``` -/
def Uuid.UnmarshalFromBytes (uuid : Uuid) (data : Option (List Nat)) : Uuid × Option Error :=
  match data with
  | none => (uuid, none)
  | some d => (some d, none)

/-! ### The text form of a `Uint128` -/

/-- The number that a string of decimal digits denotes. -/
def decimalValue (a : List Nat) : Nat :=
  a.foldl (fun n c => n * 10 + (c - 48)) 0

/-- A non-empty string of ASCII decimal digits that denotes a value of at most
`2 ^ 64 - 1`. -/
def IsDecimalUint64 (a : List Nat) : Prop :=
  a ≠ [] ∧ (∀ c ∈ a, 48 ≤ c ∧ c ≤ 57) ∧ decimalValue a ≤ 2 ^ 64 - 1

/-- A string of the form `a + "-" + b` with `a` and `b` as in `IsDecimalUint64`. -/
def IsUint128Text (s : List Nat) : Prop :=
  ∃ a b, s = a ++ 45 :: b ∧ IsDecimalUint64 a ∧ IsDecimalUint64 b

/-! ### Text export of `Uint128` -/

/-- The digit loop of Go's `strconv.FormatUint` in base 10, which fills its buffer from the
right: `for u >= 10 { q := u / 10; a[i] = '0' + u - q*10; u = q }` and then
`a[i] = '0' + u`.  `acc` is the part of the buffer written so far; the first argument
bounds the number of rounds, and `v + 1` is always enough. -/
def formatDigits : Nat → Nat → List Nat → List Nat
  | 0, _, acc => acc
  | fuel + 1, v, acc =>
    if v < 10 then (48 + v) :: acc
    else formatDigits fuel (v / 10) ((48 + v % 10) :: acc)

/-- Go's `strconv.FormatUint(v, 10)`: the decimal digits of `v`, without leading zeros. -/
def FormatUint (v : Nat) : List Nat :=
  formatDigits (v + 1) v []

/-- Source `func (u Uint128) String() string`:
`fmt.Sprintf("%v-%v", strconv.FormatUint(u[0], 10), strconv.FormatUint(u[1], 10))`. -/
def Uint128.String (u : Uint128) : List Nat :=
  FormatUint u.1 ++ [45] ++ FormatUint u.2

/-- Source `func (u Uint128) MarshalToString() (*string, error)`:
`s := u.String(); return &s, nil`. -/
def Uint128.MarshalToString (u : Uint128) : Option (List Nat) × Option Error :=
  (some (Uint128.String u), none)

/-! ### The canonical text of a `Uuid` -/

/-- A hexadecimal letter in lower case: `A`-`F` become `a`-`f`, other bytes stay. -/
def lowerHex (c : Nat) : Nat :=
  if 65 ≤ c ∧ c ≤ 70 then c + 32 else c

end Custom

namespace Proto

/-! ## Theorems: pooled boxed scalars -/

theorem wordW_Get_of_stored {s : WordStore} {p x a : Nat} (h : Stored s p x a) :
    wordW_Get p s = some x := by
  obtain ⟨hf, hc, _⟩ := h
  simp [wordW_Get, hf, hc]

theorem replenish_wf {B : Nat} {s : WordStore} (hwf : s.WF) :
    (replenish B s).WF := by
  unfold replenish
  split
  · simp [WordStore.WF]
  · exact hwf

theorem replenish_len_pos {B : Nat} {s : WordStore} (hB : 1 ≤ B) :
    (replenish B s).pool.len ≠ 0 := by
  unfold replenish
  split
  · simp; omega
  · assumption

theorem replenish_fields (B : Nat) (s : WordStore) :
    (replenish B s).fields = s.fields := by
  unfold replenish
  split <;> rfl

theorem replenish_base (B : Nat) (s : WordStore) :
    (replenish B s).pool.base = low s := by
  unfold replenish low
  split <;> rfl

theorem replenish_cells {B : Nat} {s : WordStore} {a : Nat} (h : a < s.cells.length) :
    (replenish B s).cells[a]? = s.cells[a]? := by
  unfold replenish
  split
  · exact List.getElem?_append_left h
  · rfl

theorem lt_length_of_getElem? {l : List Nat} {a y : Nat} (h : l[a]? = some y) :
    a < l.length := by
  rcases Nat.lt_or_ge a l.length with h1 | h1
  · exact h1
  · rw [List.getElem?_eq_none h1] at h; cases h

/-- One `Set`: it returns, keeps the store well formed, hands out the cell at the
watermark, raises the watermark, and keeps what every other field has stored. -/
theorem wordW_Set_step {B : Nat} (hB : 1 ≤ B) (p x : Nat) {s : WordStore} (hwf : s.WF) :
    ∃ s1, wordW_Set B p x s = some s1 ∧ s1.WF ∧ low s < low s1 ∧ Stored s1 p x (low s) ∧
      ∀ q y a, q ≠ p → Stored s q y a → Stored s1 q y a := by
  have hlen := replenish_len_pos (s := s) hB
  have hwf1 := replenish_wf (B := B) hwf
  have hbase := replenish_base B s
  unfold WordStore.WF at hwf1
  have hlow : low s < low ⟨(replenish B s).cells.set (replenish B s).pool.base x,
      fun q => if q = p then some (replenish B s).pool.base else (replenish B s).fields q,
      ⟨(replenish B s).pool.base + 1, (replenish B s).pool.len - 1⟩⟩ := by
    rw [← hbase]
    simp only [low, List.length_set]
    split <;> omega
  refine ⟨⟨(replenish B s).cells.set (replenish B s).pool.base x,
      fun q => if q = p then some (replenish B s).pool.base else (replenish B s).fields q,
      ⟨(replenish B s).pool.base + 1, (replenish B s).pool.len - 1⟩⟩,
    by simp only [wordW_Set, if_neg hlen], ?_, hlow, ?_, ?_⟩
  · simp only [WordStore.WF, List.length_set]; omega
  · refine ⟨by simp [hbase], ?_, hlow⟩
    have : low s < (replenish B s).cells.length := by omega
    simp [List.getElem?_set, this, hbase]
  · intro q y a hq hst
    obtain ⟨hf, hc, hlt⟩ := hst
    refine ⟨by simp [hq, hf, replenish_fields], ?_, Nat.lt_trans hlt hlow⟩
    show ((replenish B s).cells.set (replenish B s).pool.base x)[a]? = some y
    rw [List.getElem?_set_ne (by omega), replenish_cells (lt_length_of_getElem? hc)]
    exact hc

theorem runSets_spec {B : Nat} (hB : 1 ≤ B) :
    ∀ (ps : List (Nat × Nat)) (s : WordStore), s.WF → (ps.map Prod.fst).Nodup →
      ∃ s1, runSets (wordW_Set B) ps s = some s1 ∧ s1.WF ∧ low s ≤ low s1 ∧
        (∀ e ∈ ps, ∃ a, Stored s1 e.1 e.2 a ∧ low s ≤ a) ∧
        (∀ q y a, q ∉ ps.map Prod.fst → Stored s q y a → Stored s1 q y a) ∧
        (ps.map fun e => s1.fields e.1).Nodup
  | [], s, hwf, _ => ⟨s, rfl, hwf, Nat.le_refl _, by simp, fun _ _ _ _ h => h, by simp⟩
  | (p, x) :: rest, s, hwf, hnd => by
    obtain ⟨s1, h1, hwf1, hlow1, hst1, hfr1⟩ := wordW_Set_step hB p x hwf
    rw [List.map_cons, List.nodup_cons] at hnd
    obtain ⟨s2, h2, hwf2, hlow2, hst2, hfr2, hnd2⟩ := runSets_spec hB rest s1 hwf1 hnd.2
    have hp := hfr2 _ _ _ hnd.1 hst1
    refine ⟨s2, by simp only [runSets, h1, h2], hwf2, by omega, ?_, ?_, ?_⟩
    · intro e he
      rcases List.mem_cons.mp he with rfl | he
      · exact ⟨low s, hp, Nat.le_refl _⟩
      · obtain ⟨a, ha, hle⟩ := hst2 e he
        exact ⟨a, ha, by omega⟩
    · intro q y a hq hst
      rw [List.map_cons, List.mem_cons, not_or] at hq
      exact hfr2 q y a hq.2 (hfr1 q y a hq.1 hst)
    · rw [List.map_cons, List.nodup_cons]
      refine ⟨?_, hnd2⟩
      intro hmem
      obtain ⟨e, he, heq⟩ := List.mem_map.mp hmem
      obtain ⟨a, ha, hle⟩ := hst2 e he
      rw [ha.1, hp.1] at heq
      injection heq with heq
      omega

/-- The generic form of the sequence property, for the shared body `wordW_Set`. -/
theorem runSets_get {B : Nat} (hB : 1 ≤ B) (ps : List (Nat × Nat)) (s : WordStore)
    (hwf : s.WF) (hnd : (ps.map Prod.fst).Nodup) (k : Nat) :
    ∃ s1, runSets (wordW_Set B) (ps.take k) s = some s1 ∧
      (∀ i (hi : i < ps.length), i < k →
        wordW_Get (ps.get ⟨i, hi⟩).1 s1 = some (ps.get ⟨i, hi⟩).2) ∧
      ((ps.take k).map fun e => s1.fields e.1).Nodup := by
  have hnd1 : ((ps.take k).map Prod.fst).Nodup :=
    List.Nodup.sublist ((List.take_sublist k ps).map Prod.fst) hnd
  obtain ⟨s1, h1, _, _, hst, _, hnd2⟩ := runSets_spec hB (ps.take k) s hwf hnd1
  refine ⟨s1, h1, ?_, hnd2⟩
  intro i hi hik
  have hmem : ps.get ⟨i, hi⟩ ∈ ps.take k := by
    rw [List.mem_take_iff_getElem]
    exact ⟨i, by omega, rfl⟩
  obtain ⟨a, ha, _⟩ := hst _ hmem
  exact wordW_Get_of_stored ha

/-- Claim C1: for each width `W` in 16, 32, 64, every well-formed pool state, every batch
size `uintWPoolSize >= 1`, every boxed-optional field `p` and every value `x`: a field
holding no reference makes `wordW_IsNil(p)` true, and `wordW_Set(p, o, x)` returns, after
which `wordW_IsNil(p)` is false and `wordW_Get(p)` returns exactly `x`. -/
theorem C1_boxed_set_then_get (uint16PoolSize uint32PoolSize uint64PoolSize : Nat)
    (h16 : 1 ≤ uint16PoolSize) (h32 : 1 ≤ uint32PoolSize) (h64 : 1 ≤ uint64PoolSize)
    (s : WordStore) (hwf : s.WF) (p x : Nat) :
    ((s.fields p = none → word16_IsNil p s = true) ∧
      ∃ s1, word16_Set uint16PoolSize p x s = some s1 ∧
        word16_IsNil p s1 = false ∧ word16_Get p s1 = some x) ∧
    ((s.fields p = none → word32_IsNil p s = true) ∧
      ∃ s1, word32_Set uint32PoolSize p x s = some s1 ∧
        word32_IsNil p s1 = false ∧ word32_Get p s1 = some x) ∧
    ((s.fields p = none → word64_IsNil p s = true) ∧
      ∃ s1, word64_Set uint64PoolSize p x s = some s1 ∧
        word64_IsNil p s1 = false ∧ word64_Get p s1 = some x) := by
  have key : ∀ B, 1 ≤ B → ((s.fields p = none → wordW_IsNil p s = true) ∧
      ∃ s1, wordW_Set B p x s = some s1 ∧
        wordW_IsNil p s1 = false ∧ wordW_Get p s1 = some x) := by
    intro B hB
    refine ⟨fun h => by simp [wordW_IsNil, h], ?_⟩
    obtain ⟨s1, h1, _, _, hst, _⟩ := wordW_Set_step hB p x hwf
    exact ⟨s1, h1, by simp [wordW_IsNil, hst.1], wordW_Get_of_stored hst⟩
  exact ⟨key _ h16, key _ h32, key _ h64⟩

theorem C1_boxed_set_then_get_witness :
    ((sampleStore.fields 3 = none → word16_IsNil 3 sampleStore = true) ∧
      ∃ s1, word16_Set 1 3 65535 sampleStore = some s1 ∧
        word16_IsNil 3 s1 = false ∧ word16_Get 3 s1 = some 65535) ∧
    ((sampleStore.fields 3 = none → word32_IsNil 3 sampleStore = true) ∧
      ∃ s1, word32_Set 8 3 65535 sampleStore = some s1 ∧
        word32_IsNil 3 s1 = false ∧ word32_Get 3 s1 = some 65535) ∧
    ((sampleStore.fields 3 = none → word64_IsNil 3 sampleStore = true) ∧
      ∃ s1, word64_Set 4 3 65535 sampleStore = some s1 ∧
        word64_IsNil 3 s1 = false ∧ word64_Get 3 s1 = some 65535) :=
  C1_boxed_set_then_get 1 8 4 (by decide) (by decide) (by decide) sampleStore (by decide) 3 65535

/-- Claim C2: for each width `W`, every batch size `uintWPoolSize >= 1`, every well-formed
initial pool state and every list of `N` pairs `(p_i, x_i)` with pairwise distinct fields:
after the first `k` of the `N` calls `wordW_Set(p_i, o, x_i)` (any `k`, so both right after
the `i`-th call and after all `N`), the calls have returned, `wordW_Get(p_i)` returns `x_i`
for every `i < k`, and the cells handed out are pairwise distinct. -/
theorem C2_sets_do_not_corrupt (uint16PoolSize uint32PoolSize uint64PoolSize : Nat)
    (h16 : 1 ≤ uint16PoolSize) (h32 : 1 ≤ uint32PoolSize) (h64 : 1 ≤ uint64PoolSize)
    (s : WordStore) (hwf : s.WF) (ps : List (Nat × Nat)) (hnd : (ps.map Prod.fst).Nodup)
    (k : Nat) :
    (∃ s1, runSets (word16_Set uint16PoolSize) (ps.take k) s = some s1 ∧
      (∀ i (hi : i < ps.length), i < k →
        word16_Get (ps.get ⟨i, hi⟩).1 s1 = some (ps.get ⟨i, hi⟩).2) ∧
      ((ps.take k).map fun e => s1.fields e.1).Nodup) ∧
    (∃ s1, runSets (word32_Set uint32PoolSize) (ps.take k) s = some s1 ∧
      (∀ i (hi : i < ps.length), i < k →
        word32_Get (ps.get ⟨i, hi⟩).1 s1 = some (ps.get ⟨i, hi⟩).2) ∧
      ((ps.take k).map fun e => s1.fields e.1).Nodup) ∧
    (∃ s1, runSets (word64_Set uint64PoolSize) (ps.take k) s = some s1 ∧
      (∀ i (hi : i < ps.length), i < k →
        word64_Get (ps.get ⟨i, hi⟩).1 s1 = some (ps.get ⟨i, hi⟩).2) ∧
      ((ps.take k).map fun e => s1.fields e.1).Nodup) :=
  ⟨runSets_get h16 ps s hwf hnd k, runSets_get h32 ps s hwf hnd k,
    runSets_get h64 ps s hwf hnd k⟩

theorem C2_sets_do_not_corrupt_witness :
    (∃ s1, runSets (word16_Set 2) ([(1, 10), (2, 20), (3, 30), (4, 40)].take 4) sampleStore
        = some s1 ∧
      (∀ i (hi : i < [(1, 10), (2, 20), (3, 30), (4, 40)].length), i < 4 →
        word16_Get ([(1, 10), (2, 20), (3, 30), (4, 40)].get ⟨i, hi⟩).1 s1
          = some ([(1, 10), (2, 20), (3, 30), (4, 40)].get ⟨i, hi⟩).2) ∧
      (([(1, 10), (2, 20), (3, 30), (4, 40)].take 4).map fun e => s1.fields e.1).Nodup) :=
  (C2_sets_do_not_corrupt 2 2 2 (by decide) (by decide) (by decide) sampleStore (by decide)
    [(1, 10), (2, 20), (3, 30), (4, 40)] (by decide) 4).1

/-! ## Theorems: raw byte copy -/

theorem copyUintPtr_succ (oldptr newptr n : Nat) (m : Nat → Nat) :
    copyUintPtr oldptr newptr ((n + 1 : Nat) : Int) m =
      writeByte (copyUintPtr oldptr newptr (n : Int) m) ((newptr + n) % 2 ^ 64)
        (copyUintPtr oldptr newptr (n : Int) m ((oldptr + n) % 2 ^ 64)) := by
  simp only [copyUintPtr, Int.toNat_ofNat, List.range_succ, List.foldl_append,
    List.foldl_cons, List.foldl_nil]

theorem copyUintPtr_nonpos (oldptr newptr : Nat) (size : Int) (h : size ≤ 0)
    (m : Nat → Nat) : copyUintPtr oldptr newptr size m = m := by
  have : size.toNat = 0 := Int.toNat_eq_zero.mpr h
  simp [copyUintPtr, this]

/-- The effect of copying `n` bytes between regions that do not wrap around the
address space and do not overlap. -/
theorem copyUintPtr_nat (oldptr newptr : Nat) (m : Nat → Nat) :
    ∀ n : Nat, oldptr + n ≤ 2 ^ 64 → newptr + n ≤ 2 ^ 64 →
      (oldptr + n ≤ newptr ∨ newptr + n ≤ oldptr) →
      (∀ j, j < n → copyUintPtr oldptr newptr (n : Int) m (newptr + j) = m (oldptr + j)) ∧
      (∀ a, a < newptr ∨ newptr + n ≤ a → copyUintPtr oldptr newptr (n : Int) m a = m a)
  | 0, _, _, _ => by
    refine ⟨fun j hj => absurd hj (Nat.not_lt_zero j), fun a _ => ?_⟩
    rw [copyUintPtr_nonpos _ _ _ (by simp)]
  | n + 1, ho, hn, hd => by
    obtain ⟨ih1, ih2⟩ := copyUintPtr_nat oldptr newptr m n (by omega) (by omega) (by omega)
    have e1 : (newptr + n) % 2 ^ 64 = newptr + n := Nat.mod_eq_of_lt (by omega)
    have e2 : (oldptr + n) % 2 ^ 64 = oldptr + n := Nat.mod_eq_of_lt (by omega)
    rw [copyUintPtr_succ, e1, e2]
    refine ⟨fun j hj => ?_, fun a ha => ?_⟩
    · by_cases hjn : j = n
      · subst hjn
        simp only [writeByte, if_true]
        exact ih2 _ (by omega)
      · simp only [writeByte, if_neg (show newptr + j ≠ newptr + n by omega)]
        exact ih1 j (by omega)
    · simp only [writeByte, if_neg (show a ≠ newptr + n by omega)]
      exact ih2 a (by omega)

/-- Claim C3: `copyUintPtr(src, dst, n)` and `structPointer_Copy`, which delegates to it:
for `n <= 0` memory is unchanged; for `n >= 0` and regions `[src, src+n)`, `[dst, dst+n)`
that lie inside the 64-bit address space and do not overlap, afterwards the byte at
`dst + j` equals the byte that was at `src + j` for every `j < n`, and every byte outside
`[dst, dst+n)` (the whole source region included) is unchanged. -/
theorem C3_copy_bytes (src dst : Nat) (n : Int) (m : Nat → Nat) :
    structPointer_Copy src dst n m = copyUintPtr src dst n m ∧
    (n ≤ 0 → copyUintPtr src dst n m = m) ∧
    (0 ≤ n → src + n.toNat ≤ 2 ^ 64 → dst + n.toNat ≤ 2 ^ 64 →
      (src + n.toNat ≤ dst ∨ dst + n.toNat ≤ src) →
      (∀ j, j < n.toNat → copyUintPtr src dst n m (dst + j) = m (src + j)) ∧
      (∀ a, a < dst ∨ dst + n.toNat ≤ a → copyUintPtr src dst n m a = m a) ∧
      (∀ j, j < n.toNat → copyUintPtr src dst n m (src + j) = m (src + j))) := by
  refine ⟨rfl, fun h => copyUintPtr_nonpos src dst n h m, fun h0 hs hd hdis => ?_⟩
  obtain ⟨k, rfl⟩ := Int.eq_ofNat_of_zero_le h0
  simp only [Int.toNat_ofNat] at hs hd hdis ⊢
  obtain ⟨h1, h2⟩ := copyUintPtr_nat src dst m k hs hd hdis
  exact ⟨h1, h2, fun j hj => h2 _ (by omega)⟩

theorem C3_copy_bytes_witness :
    structPointer_Copy 1000 2000 16 sampleMem = copyUintPtr 1000 2000 16 sampleMem ∧
    (∀ j, j < 16 → copyUintPtr 1000 2000 16 sampleMem (2000 + j) = sampleMem (1000 + j)) ∧
    (∀ a, a < 2000 ∨ 2000 + 16 ≤ a → copyUintPtr 1000 2000 16 sampleMem a = sampleMem a) := by
  have h := C3_copy_bytes 1000 2000 16 sampleMem
  exact ⟨h.1, (h.2.2 (by decide) (by decide) (by decide) (by decide)).1,
    (h.2.2 (by decide) (by decide) (by decide) (by decide)).2.1⟩

/-! ## Theorems: dynamic sequences -/

theorem foldl_snoc (es : List Nat) :
    ∀ init : List Nat, es.foldl (fun v x => v ++ [x]) init = init ++ es := by
  induction es with
  | nil => intro init; simp
  | cons e es ih => intro init; simp [ih]

theorem index_of_lt (es : List Nat) (i : Nat) (hi : i < es.length) :
    (if (i : Int) < 0 then none else es[(i : Int).toNat]?) = some (es.get ⟨i, hi⟩) := by
  have h0 : ¬ ((i : Int) < 0) := by omega
  simp [h0, List.getElem?_eq_getElem hi]

/-- Claim C4: for each of `word16Slice`, `word32Slice`, `word64Slice` and
`structPointerSlice` and every list `e_0 .. e_{K-1}`: starting from the empty sequence and
calling `Append(e_0)`, ..., `Append(e_{K-1})` in order, `Len()` returns `K` and `Index(i)`
returns `e_i` for every `0 <= i < K`. -/
theorem C4_append_len_index (es : List Nat) :
    (word16Slice.Len (es.foldl word16Slice.Append []) = es.length ∧
      ∀ i (hi : i < es.length),
        word16Slice.Index (es.foldl word16Slice.Append []) i = some (es.get ⟨i, hi⟩)) ∧
    (word32Slice.Len (es.foldl word32Slice.Append []) = es.length ∧
      ∀ i (hi : i < es.length),
        word32Slice.Index (es.foldl word32Slice.Append []) i = some (es.get ⟨i, hi⟩)) ∧
    (word64Slice.Len (es.foldl word64Slice.Append []) = es.length ∧
      ∀ i (hi : i < es.length),
        word64Slice.Index (es.foldl word64Slice.Append []) i = some (es.get ⟨i, hi⟩)) ∧
    (structPointerSlice.Len (es.foldl structPointerSlice.Append []) = es.length ∧
      ∀ i (hi : i < es.length),
        structPointerSlice.Index (es.foldl structPointerSlice.Append []) i
          = some (es.get ⟨i, hi⟩)) := by
  have h16 : es.foldl word16Slice.Append [] = es := by
    have := foldl_snoc es []; simpa [word16Slice.Append] using this
  have h32 : es.foldl word32Slice.Append [] = es := by
    have := foldl_snoc es []; simpa [word32Slice.Append] using this
  have h64 : es.foldl word64Slice.Append [] = es := by
    have := foldl_snoc es []; simpa [word64Slice.Append] using this
  have hsp : es.foldl structPointerSlice.Append [] = es := by
    have := foldl_snoc es []; simpa [structPointerSlice.Append] using this
  rw [h16, h32, h64, hsp]
  exact ⟨⟨rfl, index_of_lt es⟩, ⟨rfl, index_of_lt es⟩, ⟨rfl, index_of_lt es⟩,
    ⟨rfl, index_of_lt es⟩⟩

/-! ## Theorems: copy onto itself -/

theorem writeByte_self (m : Nat → Nat) (a : Nat) : writeByte m a (m a) = m := by
  funext b
  unfold writeByte
  split
  · rename_i h; rw [h]
  · rfl

theorem copyUintPtr_same_nat (p : Nat) (m : Nat → Nat) :
    ∀ n : Nat, copyUintPtr p p (n : Int) m = m
  | 0 => copyUintPtr_nonpos p p _ (by simp) m
  | n + 1 => by
    rw [copyUintPtr_succ, copyUintPtr_same_nat p m n, writeByte_self]

/-- Claim C13: `copyUintPtr(p, p, n)`, with the same source and destination, is a no-op:
for every address `p`, every `n` and every memory, the memory after the call is the memory
before it; so also for `structPointer_Copy(p, p, n)`. -/
theorem C13_copy_onto_itself (p : Nat) (n : Int) (m : Nat → Nat) :
    copyUintPtr p p n m = m ∧ structPointer_Copy p p n m = m := by
  have h : copyUintPtr p p n m = m := by
    rcases Int.lt_or_le n 0 with hn | hn
    · exact copyUintPtr_nonpos p p n (Int.le_of_lt hn) m
    · obtain ⟨k, rfl⟩ := Int.eq_ofNat_of_zero_le hn
      exact copyUintPtr_same_nat p m k
  exact ⟨h, h⟩

/-! ## Theorems: field references -/

/-- Claim C14: for every field value `f`, `f.IsValid()` is false exactly when `f` is the
sentinel `invalidField`, which is `^field(0)`, all 64 bits set; so every offset that
`toField` makes from a struct field offset below the sentinel is valid. -/
theorem C14_field_is_valid (f : field) :
    (field.IsValid f = false ↔ f = invalidField) ∧
    invalidField = 2 ^ 64 - 1 ∧
    (∀ sf : StructField, sf.Offset < invalidField → field.IsValid (toField sf) = true) := by
  refine ⟨?_, by decide, ?_⟩
  · simp [field.IsValid, invalidField]
  · intro sf h
    have : sf.Offset ≠ uintptrNot 0 := Nat.ne_of_lt h
    simp [field.IsValid, toField, this]

/-! ## Theorems: pool replenishment -/

theorem wordW_Set_eq {B : Nat} (hB : 1 ≤ B) (p x : Nat) (s : WordStore) :
    wordW_Set B p x s = some
      ⟨(replenish B s).cells.set (replenish B s).pool.base x,
       fun q => if q = p then some (replenish B s).pool.base else (replenish B s).fields q,
       ⟨(replenish B s).pool.base + 1, (replenish B s).pool.len - 1⟩⟩ := by
  simp only [wordW_Set, if_neg (replenish_len_pos (s := s) hB)]

/-- The generic form of the replenishment property, for the shared body `wordW_Set`. -/
theorem wordW_Set_pool {B : Nat} (hB : 1 ≤ B) (p x : Nat) (s : WordStore) :
    ∃ s1, wordW_Set B p x s = some s1 ∧
      (s.pool.len = 0 → s1.cells.length = s.cells.length + B ∧ s1.pool.len = B - 1 ∧
        s1.fields p = some s.cells.length ∧ s1.pool.base = s.cells.length + 1) ∧
      (0 < s.pool.len → s1.cells.length = s.cells.length ∧ s1.pool.len = s.pool.len - 1 ∧
        s1.fields p = some s.pool.base ∧ s1.pool.base = s.pool.base + 1) := by
  refine ⟨_, wordW_Set_eq hB p x s, ?_, ?_⟩
  · intro h0
    simp [replenish, h0]
  · intro h0
    have h1 : s.pool.len ≠ 0 := by omega
    simp [replenish, h1]

/-- Claim C16: pool replenishment, for each width `W`: a boxed `wordW_Set(p, o, x)` on a
pool with `k` remaining cells and batch size `B = uintWPoolSize >= 1` returns; if `k = 0` a
batch of exactly `B` new cells is allocated, the cell handed out is the first of them and
`B - 1` cells remain; if `k > 0` nothing is allocated, the cell handed out is the first of
the pool and `k - 1` cells remain.  The pool then starts right after the cell handed out:
one cell is consumed and none comes back. -/
theorem C16_pool_replenishment (uint16PoolSize uint32PoolSize uint64PoolSize : Nat)
    (h16 : 1 ≤ uint16PoolSize) (h32 : 1 ≤ uint32PoolSize) (h64 : 1 ≤ uint64PoolSize)
    (p x : Nat) (s : WordStore) :
    (∃ s1, word16_Set uint16PoolSize p x s = some s1 ∧
      (s.pool.len = 0 → s1.cells.length = s.cells.length + uint16PoolSize ∧
        s1.pool.len = uint16PoolSize - 1 ∧
        s1.fields p = some s.cells.length ∧ s1.pool.base = s.cells.length + 1) ∧
      (0 < s.pool.len → s1.cells.length = s.cells.length ∧ s1.pool.len = s.pool.len - 1 ∧
        s1.fields p = some s.pool.base ∧ s1.pool.base = s.pool.base + 1)) ∧
    (∃ s1, word32_Set uint32PoolSize p x s = some s1 ∧
      (s.pool.len = 0 → s1.cells.length = s.cells.length + uint32PoolSize ∧
        s1.pool.len = uint32PoolSize - 1 ∧
        s1.fields p = some s.cells.length ∧ s1.pool.base = s.cells.length + 1) ∧
      (0 < s.pool.len → s1.cells.length = s.cells.length ∧ s1.pool.len = s.pool.len - 1 ∧
        s1.fields p = some s.pool.base ∧ s1.pool.base = s.pool.base + 1)) ∧
    (∃ s1, word64_Set uint64PoolSize p x s = some s1 ∧
      (s.pool.len = 0 → s1.cells.length = s.cells.length + uint64PoolSize ∧
        s1.pool.len = uint64PoolSize - 1 ∧
        s1.fields p = some s.cells.length ∧ s1.pool.base = s.cells.length + 1) ∧
      (0 < s.pool.len → s1.cells.length = s.cells.length ∧ s1.pool.len = s.pool.len - 1 ∧
        s1.fields p = some s.pool.base ∧ s1.pool.base = s.pool.base + 1)) :=
  ⟨wordW_Set_pool h16 p x s, wordW_Set_pool h32 p x s, wordW_Set_pool h64 p x s⟩

theorem C16_pool_replenishment_witness :
    (∃ s1, word32_Set 8 3 9 ⟨[], fun _ => none, ⟨0, 0⟩⟩ = some s1 ∧
      s1.cells.length = 0 + 8 ∧ s1.pool.len = 8 - 1 ∧ s1.fields 3 = some 0 ∧
        s1.pool.base = 0 + 1) ∧
    (∃ s1, word64_Set 4 3 9 sampleStore = some s1 ∧
      s1.cells.length = 3 ∧ s1.pool.len = 1 - 1 ∧ s1.fields 3 = some 2 ∧
        s1.pool.base = 2 + 1) := by
  obtain ⟨s1, h1, h2, _⟩ := (C16_pool_replenishment 8 8 4 (by decide) (by decide) (by decide)
    3 9 ⟨[], fun _ => none, ⟨0, 0⟩⟩).2.1
  obtain ⟨s2, h3, _, h4⟩ := (C16_pool_replenishment 8 8 4 (by decide) (by decide) (by decide)
    3 9 sampleStore).2.2
  exact ⟨⟨s1, h1, h2 rfl⟩, ⟨s2, h3, h4 (by decide)⟩⟩

/-! ## Theorems: inline scalars -/

theorem replenish_base_lt {B : Nat} (hB : 1 ≤ B) {s : WordStore} (hwf : s.WF) :
    (replenish B s).pool.base < (replenish B s).cells.length := by
  have h1 := replenish_len_pos (s := s) hB
  have h2 := replenish_wf (B := B) hwf
  unfold WordStore.WF at h2
  omega

theorem replenish_length_le (B : Nat) (s : WordStore) :
    s.cells.length ≤ (replenish B s).cells.length := by
  unfold replenish
  split
  · simp
  · exact Nat.le_refl _

theorem refWordW_Set_eq {B : Nat} (hB : 1 ≤ B) (p x : Nat) {s : WordStore} (hwf : s.WF)
    (hp : p < s.cells.length) :
    refWordW_Set B p x s = some
      ⟨((replenish B s).cells.set (replenish B s).pool.base x).set p x,
       (replenish B s).fields,
       ⟨(replenish B s).pool.base + 1, (replenish B s).pool.len - 1⟩⟩ := by
  have hlt := replenish_base_lt hB hwf
  have hlen := replenish_length_le B s
  have hget : ((replenish B s).cells.set (replenish B s).pool.base x)[
      (replenish B s).pool.base]? = some x := by
    simp [List.getElem?_set, hlt]
  have hp1 : p < ((replenish B s).cells.set (replenish B s).pool.base x).length := by
    rw [List.length_set]; omega
  simp only [refWordW_Set, if_neg (replenish_len_pos (s := s) hB), hget, if_pos hp1]

/-- The generic form of the inline `Set` property, for the shared body `refWordW_Set`. -/
theorem refWordW_Set_get {B : Nat} (hB : 1 ≤ B) (p x : Nat) {s : WordStore} (hwf : s.WF)
    (hp : p < s.cells.length) :
    ∃ s1, refWordW_Set B p x s = some s1 ∧ s1.cells[p]? = some x ∧
      refWordW_Get p s1 = some x ∧ s1.fields = s.fields ∧
      ∀ q, q < s.cells.length → q ≠ p → q ≠ low s → s1.cells[q]? = s.cells[q]? := by
  have hlen := replenish_length_le B s
  have hcell : (((replenish B s).cells.set (replenish B s).pool.base x).set p x)[p]?
      = some x := by
    have : p < (replenish B s).cells.length := by omega
    simp [List.getElem?_set, this]
  refine ⟨_, refWordW_Set_eq hB p x hwf hp, hcell, hcell, replenish_fields B s, ?_⟩
  intro q hq hqp hql
  show (((replenish B s).cells.set (replenish B s).pool.base x).set p x)[q]? = s.cells[q]?
  rw [List.getElem?_set_ne (Ne.symm hqp), List.getElem?_set_ne
    (by rw [replenish_base]; exact Ne.symm hql), replenish_cells hq]

/-- Claim C17: the inline `Set` writes the value into the field itself, for each width `W`:
on a well-formed pool with batch size at least 1 and an inline field at the allocated cell
`p`, `refWordW_Set(p, o, x)` returns, afterwards the cell `p` holds `x`, `refWordW_Get(p)`
returns exactly `x`, and nothing else of the records has changed: every pointer field is as
before, and so is every cell other than `p` and the pool cell that was consumed. -/
theorem C17_inline_set_then_get (uint16PoolSize uint32PoolSize uint64PoolSize : Nat)
    (h16 : 1 ≤ uint16PoolSize) (h32 : 1 ≤ uint32PoolSize) (h64 : 1 ≤ uint64PoolSize)
    (s : WordStore) (hwf : s.WF) (p x : Nat) (hp : p < s.cells.length) :
    (∃ s1, refWord16_Set uint16PoolSize p x s = some s1 ∧ s1.cells[p]? = some x ∧
      refWord16_Get p s1 = some x ∧ s1.fields = s.fields ∧
      ∀ q, q < s.cells.length → q ≠ p → q ≠ low s → s1.cells[q]? = s.cells[q]?) ∧
    (∃ s1, refWord32_Set uint32PoolSize p x s = some s1 ∧ s1.cells[p]? = some x ∧
      refWord32_Get p s1 = some x ∧ s1.fields = s.fields ∧
      ∀ q, q < s.cells.length → q ≠ p → q ≠ low s → s1.cells[q]? = s.cells[q]?) ∧
    (∃ s1, refWord64_Set uint64PoolSize p x s = some s1 ∧ s1.cells[p]? = some x ∧
      refWord64_Get p s1 = some x ∧ s1.fields = s.fields ∧
      ∀ q, q < s.cells.length → q ≠ p → q ≠ low s → s1.cells[q]? = s.cells[q]?) :=
  ⟨refWordW_Set_get h16 p x hwf hp, refWordW_Set_get h32 p x hwf hp,
    refWordW_Set_get h64 p x hwf hp⟩

theorem C17_inline_set_then_get_witness :
    ∃ s1, refWord32_Set 8 0 77 sampleInlineStore = some s1 ∧ s1.cells[0]? = some 77 ∧
      refWord32_Get 0 s1 = some 77 ∧ s1.fields = sampleInlineStore.fields ∧
      ∀ q, q < sampleInlineStore.cells.length → q ≠ 0 → q ≠ low sampleInlineStore →
        s1.cells[q]? = sampleInlineStore.cells[q]? :=
  (C17_inline_set_then_get 8 8 8 (by decide) (by decide) (by decide) sampleInlineStore
    (by decide) 0 77 (by decide)).2.1

theorem consumeCell_eq {B : Nat} (hB : 1 ≤ B) (x : Nat) (s : WordStore) :
    consumeCell B x s = some
      ⟨(replenish B s).cells.set (replenish B s).pool.base x,
       (replenish B s).fields,
       ⟨(replenish B s).pool.base + 1, (replenish B s).pool.len - 1⟩⟩ := by
  simp only [consumeCell, if_neg (replenish_len_pos (s := s) hB)]

/-- The generic form of the comparison of the inline `Set` with the boxed one. -/
theorem refWordW_Set_pool {B : Nat} (hB : 1 ≤ B) (p q x : Nat) {s : WordStore}
    (hwf : s.WF) (hp : p < s.cells.length) :
    ∃ s1 s2 s3, refWordW_Set B p x s = some s1 ∧ wordW_Set B q x s = some s2 ∧
      consumeCell B x s = some s3 ∧
      s1.pool = s3.pool ∧ s2.pool = s3.pool ∧
      s2.cells = s3.cells ∧ s1.cells = s3.cells.set p x ∧
      s3.cells[low s]? = some x ∧ s1.cells[low s]? = some x ∧
      s3.pool.base = low s + 1 ∧
      s1.fields = s.fields ∧ s2.fields q = some (low s) := by
  have hlt := replenish_base_lt hB hwf
  have hbase := replenish_base B s
  refine ⟨_, _, _, refWordW_Set_eq hB p x hwf hp, wordW_Set_eq hB q x s,
    consumeCell_eq hB x s, rfl, rfl, rfl, rfl, ?_, ?_, ?_, replenish_fields B s, ?_⟩
  · show ((replenish B s).cells.set (replenish B s).pool.base x)[low s]? = some x
    rw [← hbase]
    simp [List.getElem?_set, hlt]
  · show (((replenish B s).cells.set (replenish B s).pool.base x).set p x)[low s]? = some x
    rw [← hbase]
    by_cases hpb : p = (replenish B s).pool.base
    · rw [hpb]; simp [List.getElem?_set, hlt]
    · rw [List.getElem?_set_ne hpb]; simp [List.getElem?_set, hlt]
  · show (replenish B s).pool.base + 1 = low s + 1
    rw [hbase]
  · simp [hbase]

/-- Claim C18: the inline `refWordW_Set(p, o, x)` has the same effect on the pool as the
boxed `wordW_Set(q, o, x)`, for each width `W`: on a well-formed pool with batch size at
least 1 both return, and both leave the pool and the pool cells as writing `x` into the
first cell of the pool and advancing the pool by one cell does, with a fresh batch first
when the pool is empty (`consumeCell`).  The inline one stores `x` in the cell `p` by value
and changes no pointer field, so nothing refers to the consumed cell, while the boxed one
makes the field `q` refer to it. -/
theorem C18_inline_set_consumes_cell (uint16PoolSize uint32PoolSize uint64PoolSize : Nat)
    (h16 : 1 ≤ uint16PoolSize) (h32 : 1 ≤ uint32PoolSize) (h64 : 1 ≤ uint64PoolSize)
    (s : WordStore) (hwf : s.WF) (p q x : Nat) (hp : p < s.cells.length) :
    (∃ s1 s2 s3, refWord16_Set uint16PoolSize p x s = some s1 ∧
      word16_Set uint16PoolSize q x s = some s2 ∧ consumeCell uint16PoolSize x s = some s3 ∧
      s1.pool = s3.pool ∧ s2.pool = s3.pool ∧
      s2.cells = s3.cells ∧ s1.cells = s3.cells.set p x ∧
      s3.cells[low s]? = some x ∧ s1.cells[low s]? = some x ∧
      s3.pool.base = low s + 1 ∧
      s1.fields = s.fields ∧ s2.fields q = some (low s)) ∧
    (∃ s1 s2 s3, refWord32_Set uint32PoolSize p x s = some s1 ∧
      word32_Set uint32PoolSize q x s = some s2 ∧ consumeCell uint32PoolSize x s = some s3 ∧
      s1.pool = s3.pool ∧ s2.pool = s3.pool ∧
      s2.cells = s3.cells ∧ s1.cells = s3.cells.set p x ∧
      s3.cells[low s]? = some x ∧ s1.cells[low s]? = some x ∧
      s3.pool.base = low s + 1 ∧
      s1.fields = s.fields ∧ s2.fields q = some (low s)) ∧
    (∃ s1 s2 s3, refWord64_Set uint64PoolSize p x s = some s1 ∧
      word64_Set uint64PoolSize q x s = some s2 ∧ consumeCell uint64PoolSize x s = some s3 ∧
      s1.pool = s3.pool ∧ s2.pool = s3.pool ∧
      s2.cells = s3.cells ∧ s1.cells = s3.cells.set p x ∧
      s3.cells[low s]? = some x ∧ s1.cells[low s]? = some x ∧
      s3.pool.base = low s + 1 ∧
      s1.fields = s.fields ∧ s2.fields q = some (low s)) :=
  ⟨refWordW_Set_pool h16 p q x hwf hp, refWordW_Set_pool h32 p q x hwf hp,
    refWordW_Set_pool h64 p q x hwf hp⟩

theorem C18_inline_set_consumes_cell_witness :
    ∃ s1 s2 s3, refWord32_Set 8 0 77 sampleInlineStore = some s1 ∧
      word32_Set 8 4 77 sampleInlineStore = some s2 ∧
      consumeCell 8 77 sampleInlineStore = some s3 ∧
      s1.pool = s3.pool ∧ s2.pool = s3.pool ∧
      s2.cells = s3.cells ∧ s1.cells = s3.cells.set 0 77 ∧
      s3.cells[low sampleInlineStore]? = some 77 ∧
      s1.cells[low sampleInlineStore]? = some 77 ∧
      s3.pool.base = low sampleInlineStore + 1 ∧
      s1.fields = sampleInlineStore.fields ∧ s2.fields 4 = some (low sampleInlineStore) :=
  (C18_inline_set_consumes_cell 8 8 8 (by decide) (by decide) (by decide) sampleInlineStore
    (by decide) 0 4 77 (by decide)).2.1

/-! ## Theorems: growing a sequence of records -/

/-- The memory after the first `n` rounds of the copy loop of `appendStructPointer`. -/
theorem append_loop (Data D size L : Nat) (m0 : Nat → Nat)
    (hs : size < 2 ^ 63) (hData : Data < 2 ^ 64) (hD : D < 2 ^ 64)
    (hold : Data + L * size ≤ 2 ^ 64) (hnew : D + (L + 1) * size ≤ 2 ^ 64)
    (hdis : Data + L * size ≤ D ∨ D + (L + 1) * size ≤ Data) :
    ∀ n, n ≤ L →
      (∀ k, k < n * size →
        (List.range n).foldl
          (fun m i => copyUintPtr ((Data + (i * size) % 2 ^ 64) % 2 ^ 64)
            ((D + (i * size) % 2 ^ 64) % 2 ^ 64) (intOfUintptr size) m) m0 (D + k)
          = m0 (Data + k)) ∧
      (∀ a, a < D ∨ D + n * size ≤ a →
        (List.range n).foldl
          (fun m i => copyUintPtr ((Data + (i * size) % 2 ^ 64) % 2 ^ 64)
            ((D + (i * size) % 2 ^ 64) % 2 ^ 64) (intOfUintptr size) m) m0 a = m0 a)
  | 0, _ => by
    refine ⟨fun k hk => ?_, fun a _ => rfl⟩
    simp at hk
  | n + 1, hn => by
    obtain ⟨ih1, ih2⟩ := append_loop Data D size L m0 hs hData hD hold hnew hdis n (by omega)
    have hsz : intOfUintptr size = (size : Int) := by
      have : size % 2 ^ 64 = size := Nat.mod_eq_of_lt (by omega)
      simp only [intOfUintptr, this, if_pos hs]
    have hmul : (n + 1) * size ≤ L * size := Nat.mul_le_mul_right size hn
    have hexp : (n + 1) * size = n * size + size := by ring
    have hexpL : (L + 1) * size = L * size + size := by ring
    rw [hexp] at hmul
    rw [hexpL] at hnew hdis
    have hlt : n * size < 2 ^ 64 := by
      rcases Nat.eq_zero_or_pos size with h0 | h0
      · rw [h0]; simp
      · omega
    have e0 : (n * size) % 2 ^ 64 = n * size := Nat.mod_eq_of_lt hlt
    have e1 : (Data + n * size) % 2 ^ 64 = Data + n * size := by
      rcases Nat.eq_zero_or_pos size with h0 | h0
      · rw [h0]; simpa using Nat.mod_eq_of_lt hData
      · exact Nat.mod_eq_of_lt (by omega)
    have e2 : (D + n * size) % 2 ^ 64 = D + n * size := by
      rcases Nat.eq_zero_or_pos size with h0 | h0
      · rw [h0]; simpa using Nat.mod_eq_of_lt hD
      · exact Nat.mod_eq_of_lt (by omega)
    rw [List.range_succ, List.foldl_append, List.foldl_cons, List.foldl_nil, e0, e1, e2, hsz]
    obtain ⟨c1, c2⟩ := copyUintPtr_nat (Data + n * size) (D + n * size)
      ((List.range n).foldl
          (fun m i => copyUintPtr ((Data + (i * size) % 2 ^ 64) % 2 ^ 64)
            ((D + (i * size) % 2 ^ 64) % 2 ^ 64) (size : Int) m) m0)
      size (by omega) (by omega) (by omega)
    rw [hsz] at ih1 ih2
    rw [hexp]
    refine ⟨fun k hk => ?_, fun a ha => ?_⟩
    · by_cases hkn : k < n * size
      · rw [c2 (D + k) (by omega)]
        exact ih1 k hkn
      · have hk1 : D + k = D + n * size + (k - n * size) := by omega
        rw [hk1, c1 (k - n * size) (by omega), ih2 _ (by omega)]
        congr 1
        omega
    · rw [c2 a (by omega)]
      exact ih2 a (by omega)

/-- What `appendStructPointer` does to a sequence of `L` elements of `size` bytes stored at
`Data`, when the new backing store at `D` is fresh: it lies inside the address space and
does not overlap the old one. -/
theorem appendStructPointer_spec (base : Nat) (f : field) (size D : Nat) (h : RawHeap)
    (Data L : Nat) (Cap : Int)
    (hhdr : h.headers (structPointer_GetSliceHeader base f) = ⟨Data, (L : Int), Cap⟩)
    (hL : L + 1 < 2 ^ 63) (hs : size < 2 ^ 63) (hData : Data < 2 ^ 64) (hD : D < 2 ^ 64)
    (hold : Data + L * size ≤ 2 ^ 64) (hnew : D + (L + 1) * size ≤ 2 ^ 64)
    (hdis : Data + L * size ≤ D ∨ D + (L + 1) * size ≤ Data) :
    ∃ h1, appendStructPointer base f size D h = some (h1, D + L * size) ∧
      h1.headers (structPointer_GetSliceHeader base f)
        = ⟨D, ((L + 1 : Nat) : Int), ((L + 1 : Nat) : Int)⟩ ∧
      (∀ k, k < L * size → h1.mem (D + k) = h.mem (Data + k)) ∧
      (∀ k, k < size → h1.mem (D + L * size + k) = 0) ∧
      (∀ a, a < D ∨ D + (L + 1) * size ≤ a → h1.mem a = h.mem a) ∧
      (∀ a, a ≠ structPointer_GetSliceHeader base f → h1.headers a = h.headers a) := by
  have hguard : ¬ (((L : Int) + 1 < 0) ∨ (2 : Int) ^ 63 ≤ (L : Int) + 1) := by
    have h63 : ((2 : Int) ^ 63) = ((2 ^ 63 : Nat) : Int) := by norm_num
    rw [h63]
    omega
  have htn : ((L : Int) + 1).toNat = L + 1 := by omega
  have hexpL : (L + 1) * size = L * size + size := by ring
  have hret : (D + (uintptrOfInt ((L : Int) + 1 - 1) * size) % 2 ^ 64) % 2 ^ 64
      = D + L * size := by
    have e : uintptrOfInt ((L : Int) + 1 - 1) = L := by
      have h64 : ((2 : Int) ^ 64) = ((2 ^ 64 : Nat) : Int) := by norm_num
      unfold uintptrOfInt
      rw [h64]
      omega
    rw [e]
    rcases Nat.eq_zero_or_pos size with h0 | h0
    · rw [h0]; simpa using Nat.mod_eq_of_lt hD
    · have : L * size < 2 ^ 64 := by omega
      rw [Nat.mod_eq_of_lt this, Nat.mod_eq_of_lt (by omega)]
  obtain ⟨l1, l2⟩ := append_loop Data D size L (makeSliceMem D ((L + 1) * size) h.mem)
    hs hData hD hold hnew hdis L (Nat.le_refl _)
  have hold_out : ∀ k, k < L * size →
      makeSliceMem D ((L + 1) * size) h.mem (Data + k) = h.mem (Data + k) := by
    intro k hk
    have : ¬ (D ≤ Data + k ∧ Data + k < D + (L + 1) * size) := by omega
    simp only [makeSliceMem, if_neg this]
  have heq : appendStructPointer base f size D h = some
      (⟨(List.range L).foldl
          (fun m i => copyUintPtr ((Data + (i * size) % 2 ^ 64) % 2 ^ 64)
            ((D + (i * size) % 2 ^ 64) % 2 ^ 64) (intOfUintptr size) m)
          (makeSliceMem D ((L + 1) * size) h.mem),
        fun a => if a = structPointer_GetSliceHeader base f
          then ⟨D, ((L + 1 : Nat) : Int), ((L + 1 : Nat) : Int)⟩ else h.headers a⟩,
       D + L * size) := by
    simp only [appendStructPointer, hhdr, if_neg hguard, hret, htn, Int.toNat_ofNat]
    rfl
  refine ⟨_, heq, ?_, ?_, ?_, ?_, ?_⟩
  · simp only [if_true]
  · intro k hk
    exact (l1 k hk).trans (hold_out k hk)
  · intro k hk
    refine (l2 _ (by omega)).trans ?_
    have : D ≤ D + L * size + k ∧ D + L * size + k < D + (L + 1) * size := by omega
    simp only [makeSliceMem, if_pos this]
  · intro a ha
    refine (l2 a (by omega)).trans ?_
    have : ¬ (D ≤ a ∧ a < D + (L + 1) * size) := by omega
    simp only [makeSliceMem, if_neg this]
  · intro a ha
    simp only [if_neg ha]

/-- Claim C15: `appendStructPointer` grows the sequence by exactly one element through a
fresh backing store.  For a slice header `(Data, Len = L, Cap)` at field `f`, element size
`s`, and a new store at `D` that lies inside the address space and does not overlap the old
one: the call returns, afterwards the header is `(D, L+1, L+1)`, and for every `i < L*s` the
byte at `D + i` is the byte that was at `Data + i`; so `0 <= Len <= Cap` still holds. -/
theorem C15_append_grows_by_one (base : Nat) (f : field) (s D : Nat) (h : RawHeap)
    (Data L : Nat) (Cap : Int)
    (hhdr : h.headers (structPointer_GetSliceHeader base f) = ⟨Data, (L : Int), Cap⟩)
    (hL : L + 1 < 2 ^ 63) (hs : s < 2 ^ 63) (hData : Data < 2 ^ 64) (hD : D < 2 ^ 64)
    (hold : Data + L * s ≤ 2 ^ 64) (hnew : D + (L + 1) * s ≤ 2 ^ 64)
    (hdis : Data + L * s ≤ D ∨ D + (L + 1) * s ≤ Data) :
    ∃ h1 ret, appendStructPointer base f s D h = some (h1, ret) ∧
      h1.headers (structPointer_GetSliceHeader base f)
        = ⟨D, ((L + 1 : Nat) : Int), ((L + 1 : Nat) : Int)⟩ ∧
      (∀ i, i < L * s → h1.mem (D + i) = h.mem (Data + i)) ∧
      0 ≤ (h1.headers (structPointer_GetSliceHeader base f)).Len ∧
      (h1.headers (structPointer_GetSliceHeader base f)).Len
        ≤ (h1.headers (structPointer_GetSliceHeader base f)).Cap := by
  obtain ⟨h1, heq, hh, hcopy, _, _, _⟩ :=
    appendStructPointer_spec base f s D h Data L Cap hhdr hL hs hData hD hold hnew hdis
  refine ⟨h1, _, heq, hh, hcopy, ?_, ?_⟩
  · rw [hh]; exact Int.ofNat_nonneg _
  · rw [hh]

theorem C15_append_grows_by_one_witness :
    ∃ h1 ret, appendStructPointer 64 8 4 2000 sampleHeap = some (h1, ret) ∧
      h1.headers (structPointer_GetSliceHeader 64 8) = ⟨2000, ((2 + 1 : Nat) : Int),
        ((2 + 1 : Nat) : Int)⟩ ∧
      (∀ i, i < 2 * 4 → h1.mem (2000 + i) = sampleHeap.mem (1000 + i)) ∧
      0 ≤ (h1.headers (structPointer_GetSliceHeader 64 8)).Len ∧
      (h1.headers (structPointer_GetSliceHeader 64 8)).Len
        ≤ (h1.headers (structPointer_GetSliceHeader 64 8)).Cap :=
  C15_append_grows_by_one 64 8 4 2000 sampleHeap 1000 2 2 (by decide) (by decide) (by decide)
    (by decide) (by decide) (by decide) (by decide) (by decide)

/-- Claim C19: `appendStructPointer` takes no element and writes none.  Under the conditions
of C15 it returns the address `D + L*s` of the new last slot, the slot of index `L` in the
new backing store; the `s` bytes of that slot are zero on return; and every byte outside the
new backing store, so every byte of the old backing store, is as it was.  Storing the
appended element is left to the caller, through the returned pointer. -/
theorem C19_append_returns_zero_slot (base : Nat) (f : field) (s D : Nat) (h : RawHeap)
    (Data L : Nat) (Cap : Int)
    (hhdr : h.headers (structPointer_GetSliceHeader base f) = ⟨Data, (L : Int), Cap⟩)
    (hL : L + 1 < 2 ^ 63) (hs : s < 2 ^ 63) (hData : Data < 2 ^ 64) (hD : D < 2 ^ 64)
    (hold : Data + L * s ≤ 2 ^ 64) (hnew : D + (L + 1) * s ≤ 2 ^ 64)
    (hdis : Data + L * s ≤ D ∨ D + (L + 1) * s ≤ Data) :
    ∃ h1, appendStructPointer base f s D h = some (h1, D + L * s) ∧
      (∀ k, k < s → h1.mem (D + L * s + k) = 0) ∧
      (∀ k, k < L * s → h1.mem (Data + k) = h.mem (Data + k)) ∧
      (∀ a, a < D ∨ D + (L + 1) * s ≤ a → h1.mem a = h.mem a) := by
  obtain ⟨h1, heq, _, _, hzero, hout, _⟩ :=
    appendStructPointer_spec base f s D h Data L Cap hhdr hL hs hData hD hold hnew hdis
  refine ⟨h1, heq, hzero, fun k hk => hout _ ?_, hout⟩
  have hexpL : (L + 1) * s = L * s + s := by ring
  omega

theorem C19_append_returns_zero_slot_witness :
    ∃ h1, appendStructPointer 64 8 4 2000 sampleHeap = some (h1, 2000 + 2 * 4) ∧
      (∀ k, k < 4 → h1.mem (2000 + 2 * 4 + k) = 0) ∧
      (∀ k, k < 2 * 4 → h1.mem (1000 + k) = sampleHeap.mem (1000 + k)) ∧
      (∀ a, a < 2000 ∨ 2000 + (2 + 1) * 4 ≤ a → h1.mem a = sampleHeap.mem a) :=
  C19_append_returns_zero_slot 64 8 4 2000 sampleHeap 1000 2 2 (by decide) (by decide)
    (by decide) (by decide) (by decide) (by decide) (by decide) (by decide)

end Proto

namespace Custom

/-! ## Theorems: fixed-width binary codecs -/

theorem le_bytes_64 (v : Nat) (h : v < 2 ^ 64) :
    v % 256 + (v >>> 8) % 256 * 2 ^ 8 + (v >>> 16) % 256 * 2 ^ 16 + (v >>> 24) % 256 * 2 ^ 24
      + (v >>> 32) % 256 * 2 ^ 32 + (v >>> 40) % 256 * 2 ^ 40 + (v >>> 48) % 256 * 2 ^ 48
      + (v >>> 56) % 256 * 2 ^ 56 = v := by
  simp only [Nat.shiftRight_eq_div_pow]
  norm_num at h ⊢
  omega

theorem le_bytes_16 (w : Nat) (h : w < 2 ^ 16) :
    w % 256 + (w >>> 8) % 256 * 2 ^ 8 = w := by
  simp only [Nat.shiftRight_eq_div_pow]
  norm_num at h ⊢
  omega

theorem marshal_bytes_128 (v : Uint128) :
    Uint128.MarshalToBytes v = some
      ([v.1 % 256, (v.1 >>> 8) % 256, (v.1 >>> 16) % 256, (v.1 >>> 24) % 256,
        (v.1 >>> 32) % 256, (v.1 >>> 40) % 256, (v.1 >>> 48) % 256, (v.1 >>> 56) % 256,
        v.2 % 256, (v.2 >>> 8) % 256, (v.2 >>> 16) % 256, (v.2 >>> 24) % 256,
        (v.2 >>> 32) % 256, (v.2 >>> 40) % 256, (v.2 >>> 48) % 256, (v.2 >>> 56) % 256],
       none) := by
  simp [Uint128.MarshalToBytes, PutLittleEndianUint128, PutLittleEndianUint64, setIndex,
    List.replicate]

theorem marshal_bytes_16 (w : Nat) :
    Uint16.MarshalToBytes w = some ([w % 256, (w >>> 8) % 256], none) := by
  simp [Uint16.MarshalToBytes, PutLittleEndianUint16, setIndex, List.replicate]

/-- Claim C5: fixed-width binary codec round trip: for every `Uint128` value `v` (two 64-bit
words) `v.MarshalToBytes()` returns a buffer and no error, and `UnmarshalFromBytes` on that
buffer returns no error and leaves the target equal to `v`; likewise for every `Uint16`
value `w` with `Uint16.MarshalToBytes` and `Uint16.UnmarshalFromBytes` (loads read as
little-endian). -/
theorem C5_binary_round_trip (v : Uint128) (hv : v.InRange) (w : Nat) (hw : w < 2 ^ 16)
    (u : Uint128) (t : Nat) :
    (∃ buf, Uint128.MarshalToBytes v = some (buf, none) ∧
      Uint128.UnmarshalFromBytes u (some buf) = some (v, none)) ∧
    (∃ buf, Uint16.MarshalToBytes w = some (buf, none) ∧
      Uint16.UnmarshalFromBytes t (some buf) = some (w, none)) := by
  refine ⟨⟨_, marshal_bytes_128 v, ?_⟩, ⟨_, marshal_bytes_16 w, ?_⟩⟩
  · have h1 := le_bytes_64 v.1 hv.1
    have h2 := le_bytes_64 v.2 hv.2
    norm_num at h1 h2
    simp only [Uint128.UnmarshalFromBytes, GetLittleEndianUint128, GetLittleEndianUint64]
    simp
    exact Prod.ext h1 h2
  · have h1 := le_bytes_16 w hw
    norm_num at h1
    simp only [Uint16.UnmarshalFromBytes, GetLittleEndianUint16]
    simp
    exact h1

theorem C5_binary_round_trip_witness :
    (∃ buf, Uint128.MarshalToBytes (2 ^ 64 - 1, 258) = some (buf, none) ∧
      Uint128.UnmarshalFromBytes (7, 7) (some buf) = some ((2 ^ 64 - 1, 258), none)) ∧
    (∃ buf, Uint16.MarshalToBytes 65535 = some (buf, none) ∧
      Uint16.UnmarshalFromBytes 7 (some buf) = some (65535, none)) :=
  C5_binary_round_trip (2 ^ 64 - 1, 258) (by unfold Uint128.InRange; decide) 65535
    (by decide) (7, 7) 7

/-- Claim C8 (as stated, refuted): a `nil` buffer has length `0`, and on it both importers
return no error and leave a non-zero target as it was. -/
theorem C8_nil_buffer_counterexample :
    ¬ (∀ (data : Option (List Nat)) (u : Uint128) (t : Nat), sliceLen data = 0 →
        Uint128.UnmarshalFromBytes u data = some ((0, 0), none) ∧
        Uint16.UnmarshalFromBytes t data = some (0, none)) := by
  intro h
  have h1 := (h none (1, 2) 7 rfl).2
  simp [Uint16.UnmarshalFromBytes] at h1

/-- Claim C8 (amended): for every buffer of length `0` that is not `nil` and every target
value, `Uint128.UnmarshalFromBytes` and `Uint16.UnmarshalFromBytes` return no error and
afterwards the target equals the zero value of the type, `Uint128{0, 0}` resp. `Uint16(0)`. -/
theorem C8_empty_buffer_gives_zero (u : Uint128) (t : Nat) :
    Uint128.UnmarshalFromBytes u (some []) = some ((0, 0), none) ∧
    Uint16.UnmarshalFromBytes t (some []) = some (0, none) :=
  ⟨rfl, rfl⟩

/-! ## Theorems: `Uint16` from a 32-bit value -/

/-- Claim C10: for every value `d` and every `Uint16` target `t`,
`Uint16.UnmarshalFromUint32(&d)` returns an error exactly when `d > 65535` (so for
`d = 65536`); when it errors the target is unchanged, and when it succeeds the target equals
`d`.  Hence `UnmarshalFromUint32(MarshalToUint32(u))` restores every `Uint16` value `u`. -/
theorem C10_uint32_range_check (d t u : Nat) (hu : u < 2 ^ 16) :
    ((Uint16.UnmarshalFromUint32 t (some d)).2 ≠ none ↔ d > 65535) ∧
    (Uint16.UnmarshalFromUint32 t (some 65536)).2 = some Error.errTooLargeUint16 ∧
    ((Uint16.UnmarshalFromUint32 t (some d)).2 ≠ none →
      Uint16.UnmarshalFromUint32 t (some d) = (t, some Error.errTooLargeUint16)) ∧
    ((Uint16.UnmarshalFromUint32 t (some d)).2 = none →
      Uint16.UnmarshalFromUint32 t (some d) = (d, none)) ∧
    (Uint16.MarshalToUint32 u).2 = none ∧
    Uint16.UnmarshalFromUint32 t (Uint16.MarshalToUint32 u).1 = (u, none) := by
  have hu1 : ¬ u > 65535 := by norm_num at hu; omega
  have hu2 : u % 2 ^ 16 = u := Nat.mod_eq_of_lt hu
  refine ⟨?_, by simp [Uint16.UnmarshalFromUint32], ?_, ?_, rfl, ?_⟩
  · by_cases h : d > 65535 <;> simp [Uint16.UnmarshalFromUint32, h]
  · by_cases h : d > 65535 <;> simp [Uint16.UnmarshalFromUint32, h]
  · by_cases h : d > 65535
    · simp [Uint16.UnmarshalFromUint32, h]
    · simp [Uint16.UnmarshalFromUint32, h]
      omega
  · simp only [Uint16.MarshalToUint32, Uint16.UnmarshalFromUint32, if_neg hu1, hu2]

theorem C10_uint32_range_check_witness :
    ((Uint16.UnmarshalFromUint32 9 (some 65536)).2 ≠ none ↔ 65536 > 65535) ∧
    Uint16.UnmarshalFromUint32 9 (some 65536) = (9, some Error.errTooLargeUint16) ∧
    Uint16.UnmarshalFromUint32 9 (Uint16.MarshalToUint32 65535).1 = (65535, none) :=
  have h := C10_uint32_range_check 65536 9 65535 (by decide)
  ⟨h.1, h.2.2.1 (by decide), h.2.2.2.2.2⟩

/-! ## Theorems: `Uuid` text codec -/

theorem decodeRune_ascii (b : Nat) (r : List Nat) (h : b < 128) :
    decodeRune (b :: r) = (b, 1) := by
  simp [decodeRune, h]

theorem decodeRune_high (b : Nat) (r : List Nat) (h : 128 ≤ b) :
    128 ≤ (decodeRune (b :: r)).1 := by
  have h0 : ¬ b < 128 := by omega
  rcases r with _ | ⟨b1, _ | ⟨b2, _ | ⟨b3, r⟩⟩⟩ <;>
    simp only [decodeRune, h0, if_false] <;> split_ifs <;> simp only [] <;> omega

theorem hexValue_high (c : Nat) (h : 128 ≤ c) : hexValue c = none := by
  unfold hexValue
  split_ifs <;> first | rfl | omega

theorem hexValue_none_iff (b : Nat) : hexValue b = none ↔ ¬ IsHexDigit b := by
  unfold hexValue IsHexDigit
  split_ifs <;> simp <;> omega

/-- A byte that is not ASCII ends the loop with `EINVAL`, whatever the index. -/
theorem parseLoop_high (f b : Nat) (r : List Nat) (i j : Nat) (u : List Nat)
    (h : 128 ≤ b) : parseLoop (f + 1) (b :: r) i j u = some none := by
  have hc := decodeRune_high b r h
  have hv := hexValue_high _ hc
  have h45 : (decodeRune (b :: r)).1 ≠ 45 := by omega
  simp only [parseLoop, hv, h45, ne_eq, not_false_eq_true, if_true]
  split_ifs <;> rfl

/-- One iteration of the loop on an ASCII byte. -/
theorem parseLoop_low (f b : Nat) (r : List Nat) (i j : Nat) (u : List Nat)
    (h : b < 128) : parseLoop (f + 1) (b :: r) i j u =
      if i = 8 ∨ i = 13 ∨ i = 18 ∨ i = 23 then
        if b ≠ 45 then some none else parseLoop f r (i + 1) j u
      else
        match hexValue b with
        | none => some none
        | some v =>
          if j &&& 1 = 0 then
            match setIndex u (j >>> 1) ((v <<< 4) % 256) with
            | none => none
            | some u1 => parseLoop f r (i + 1) (j + 1) u1
          else
            match u[j >>> 1]? with
            | none => none
            | some old => parseLoop f r (i + 1) (j + 1) (u.set (j >>> 1) (old ||| v)) := by
  simp only [parseLoop, decodeRune_ascii b r h, List.drop_succ_cons, List.drop_zero]

theorem bad_tail {b : Nat} {r : List Nat} {i : Nat}
    (hok : ¬ ((IsDashIndex i ∧ b ≠ 45) ∨ (¬ IsDashIndex i ∧ ¬ IsHexDigit b)))
    (hbad : ∃ k c, (b :: r)[k]? = some c ∧
      ((IsDashIndex (i + k) ∧ c ≠ 45) ∨ (¬ IsDashIndex (i + k) ∧ ¬ IsHexDigit c))) :
    ∃ k c, r[k]? = some c ∧
      ((IsDashIndex (i + 1 + k) ∧ c ≠ 45) ∨ (¬ IsDashIndex (i + 1 + k) ∧ ¬ IsHexDigit c)) := by
  obtain ⟨k, c, hk, hc⟩ := hbad
  cases k with
  | zero =>
    simp only [List.getElem?_cons_zero, Option.some.injEq] at hk
    subst hk
    exact absurd hc hok
  | succ k =>
    simp only [List.getElem?_cons_succ] at hk
    have e : i + (k + 1) = i + 1 + k := by omega
    rw [e] at hc
    exact ⟨k, c, hk, hc⟩

/-- On a string with a byte that is out of place, the loop returns `EINVAL`. -/
theorem parseLoop_bad : ∀ (rest : List Nat) (f i j : Nat) (u : List Nat),
    rest.length ≤ f → i + rest.length = 36 →
    j + ((if 8 < i then 1 else 0) + (if 13 < i then 1 else 0) + (if 18 < i then 1 else 0)
      + (if 23 < i then 1 else 0)) = i →
    u.length = 16 →
    (∃ k c, rest[k]? = some c ∧
      ((IsDashIndex (i + k) ∧ c ≠ 45) ∨ (¬ IsDashIndex (i + k) ∧ ¬ IsHexDigit c))) →
    parseLoop f rest i j u = some none
  | [], _, _, _, _, _, _, _, _, hbad => by
    obtain ⟨k, c, hk, _⟩ := hbad
    simp at hk
  | b :: r, 0, _, _, _, hf, _, _, _, _ => by simp at hf
  | b :: r, f + 1, i, j, u, hf, hi, hj, hu, hbad => by
    simp only [List.length_cons] at hf hi
    by_cases hb : b < 128
    · rw [parseLoop_low f b r i j u hb]
      by_cases hd : i = 8 ∨ i = 13 ∨ i = 18 ∨ i = 23
      · rw [if_pos hd]
        by_cases h45 : b = 45
        · rw [if_neg (by simpa using h45)]
          apply parseLoop_bad r f (i + 1) j u (by omega) (by omega) _ hu
          · exact bad_tail (by simp [IsDashIndex, hd, h45]) hbad
          · split_ifs at hj ⊢ <;> omega
        · rw [if_pos h45]
      · rw [if_neg hd]
        cases hv : hexValue b with
        | none => rfl
        | some v =>
          have hhex : IsHexDigit b := by
            by_contra hn
            rw [(hexValue_none_iff b).mpr hn] at hv
            cases hv
          have hbad1 := bad_tail (i := i) (b := b) (r := r)
            (by simp [IsDashIndex, hd, hhex]) hbad
          have hj1 : j + 1 + ((if 8 < i + 1 then 1 else 0) + (if 13 < i + 1 then 1 else 0)
              + (if 18 < i + 1 then 1 else 0) + (if 23 < i + 1 then 1 else 0)) = i + 1 := by
            split_ifs at hj ⊢ <;> omega
          have hlt : j >>> 1 < u.length := by
            rw [Nat.shiftRight_eq_div_pow, hu]
            split_ifs at hj <;> omega
          simp only []
          split_ifs with hpar
          · simp only [setIndex, if_pos hlt]
            exact parseLoop_bad r f (i + 1) (j + 1) _ (by omega) (by omega) hj1
              (by rw [List.length_set]; exact hu) hbad1
          · rw [List.getElem?_eq_getElem hlt]
            exact parseLoop_bad r f (i + 1) (j + 1) _ (by omega) (by omega) hj1
              (by rw [List.length_set]; exact hu) hbad1
    · exact parseLoop_high f b r i j u (by omega)

theorem parse_of_loop_bad (s1 : List Nat) (h36 : s1.length = 36)
    (hbad : ∃ k c, s1[k]? = some c ∧
      ((IsDashIndex k ∧ c ≠ 45) ∨ (¬ IsDashIndex k ∧ ¬ IsHexDigit c))) :
    parseLoop s1.length s1 0 0 (List.replicate 16 0) = some none := by
  apply parseLoop_bad s1 s1.length 0 0 _ (Nat.le_refl _) (by omega) (by simp) (by simp)
  simpa using hbad

theorem Parse_malformed (s : List Nat) (hm : Malformed s) :
    Parse s = some (none, some Error.EINVAL) := by
  unfold Parse
  by_cases h38 : s.length = 38
  · by_cases hbr : s[0]? = some 123 ∧ s[37]? = some 125
    · have hlen : ((s.drop 1).take 36).length = 36 := by
        rw [List.length_take, List.length_drop, h38]; rfl
      have hbad : ∃ k c, ((s.drop 1).take 36)[k]? = some c ∧
          ((IsDashIndex k ∧ c ≠ 45) ∨ (¬ IsDashIndex k ∧ ¬ IsHexDigit c)) := by
        rcases hm with h | h | h
        · exact absurd h38 h.2
        · exact absurd hbr h.2
        · simpa [stripBraces, h38] using h
      have hloop := parse_of_loop_bad _ hlen hbad
      rw [if_neg (by rw [not_and_or]; right; simp [hbr.1, hbr.2])]
      simp only [if_pos h38, hlen, ne_eq, not_true_eq_false, if_false]
      rw [hlen] at hloop
      rw [hloop]
    · rw [if_pos ⟨h38, by
        rw [not_and_or] at hbr
        exact hbr⟩]
  · rw [if_neg (fun h => h38 h.1)]
    simp only [if_neg h38]
    by_cases h36 : s.length = 36
    · have hbad : ∃ k c, s[k]? = some c ∧
          ((IsDashIndex k ∧ c ≠ 45) ∨ (¬ IsDashIndex k ∧ ¬ IsHexDigit c)) := by
        rcases hm with h | h | h
        · exact absurd h36 h.1
        · exact absurd h.1 h38
        · simpa [stripBraces, h38] using h
      have hloop := parse_of_loop_bad _ h36 hbad
      rw [if_neg (by simpa using h36), hloop]
    · rw [if_pos h36]

/-- Claim C9: for every non-empty string `s` that is malformed as a `Uuid` (its length is
neither 36 nor 38, or it has length 38 without the enclosing braces, or after brace
stripping a byte at index 8, 13, 18 or 23 is not `-`, or a byte at another index is not a
hexadecimal digit), `Parse(s)` returns the error `EINVAL`, and
`Uuid.UnmarshalFromString(&s)` returns that error and leaves the target unchanged. -/
theorem C9_malformed_is_rejected (s : List Nat) (hne : s ≠ []) (hm : Malformed s)
    (t : Uuid) :
    Parse s = some (none, some Error.EINVAL) ∧
    Uuid.UnmarshalFromString t (some s) = some (t, some Error.EINVAL) := by
  have hp := Parse_malformed s hm
  refine ⟨hp, ?_⟩
  have hlen : s.length ≠ 0 := by
    intro h
    exact hne (List.length_eq_zero.mp h)
  simp only [Uuid.UnmarshalFromString, if_neg hlen, hp]

theorem C9_malformed_is_rejected_witness :
    Parse (ascii "6ba7b810-9dad-11d1-80b4-00c04fd430cg") = some (none, some Error.EINVAL) ∧
    Uuid.UnmarshalFromString (some [1, 2, 3])
        (some (ascii "6ba7b810-9dad-11d1-80b4-00c04fd430cg"))
      = some (some [1, 2, 3], some Error.EINVAL) :=
  C9_malformed_is_rejected (ascii "6ba7b810-9dad-11d1-80b4-00c04fd430cg") (by decide)
    (Or.inr (Or.inr ⟨35, 103, by decide, Or.inr ⟨by unfold IsDashIndex; decide,
      by unfold IsHexDigit; decide⟩⟩)) (some [1, 2, 3])

theorem hexDigit_facts : ∀ d, d < 16 → hexDigit d < 128 ∧ hexValue (hexDigit d) = some d := by
  decide

set_option maxRecDepth 100000 in
theorem nibbles_join : ∀ b, b < 256 → (((b / 16) <<< 4) % 256) ||| (b % 16) = b := by
  decide

/-- Two iterations of the loop on the two digits that `%x` prints for the byte `b`. -/
theorem parseLoop_pair (f b : Nat) (r : List Nat) (i j : Nat) (u : List Nat)
    (hb : b < 256) (hi : ¬ (i = 8 ∨ i = 13 ∨ i = 18 ∨ i = 23))
    (hi1 : ¬ (i + 1 = 8 ∨ i + 1 = 13 ∨ i + 1 = 18 ∨ i + 1 = 23))
    (hj : j % 2 = 0) (hlt : j / 2 < u.length) :
    parseLoop (f + 2) (hexDigit (b / 16) :: hexDigit (b % 16) :: r) i j u
      = parseLoop f r (i + 2) (j + 2) (u.set (j / 2) b) := by
  obtain ⟨h1, h2⟩ := hexDigit_facts (b / 16) (by omega)
  obtain ⟨h3, h4⟩ := hexDigit_facts (b % 16) (by omega)
  have e1 : j &&& 1 = 0 := by rw [Nat.and_one_is_mod]; exact hj
  have e2 : ¬ ((j + 1) &&& 1 = 0) := by rw [Nat.and_one_is_mod]; omega
  have e3 : j >>> 1 = j / 2 := by rw [Nat.shiftRight_eq_div_pow, Nat.pow_one]
  have e4 : (j + 1) >>> 1 = j / 2 := by rw [Nat.shiftRight_eq_div_pow]; omega
  rw [parseLoop_low (f + 1) _ _ i j u h1, if_neg hi, h2]
  simp only [e1, if_true, e3, setIndex, if_pos hlt]
  rw [parseLoop_low f _ _ (i + 1) (j + 1) _ h3, if_neg hi1, h4]
  simp only [e2, if_false, e4]
  rw [List.getElem?_eq_getElem (by rw [List.length_set]; exact hlt)]
  simp only [List.getElem_set_self, List.set_set, nibbles_join b hb]

theorem parseLoop_dash (f : Nat) (r : List Nat) (i j : Nat) (u : List Nat)
    (hi : i = 8 ∨ i = 13 ∨ i = 18 ∨ i = 23) :
    parseLoop (f + 1) (45 :: r) i j u = parseLoop f r (i + 1) j u := by
  rw [parseLoop_low f 45 r i j u (by decide), if_pos hi]
  simp

theorem list_of_length_16 (v : List Nat) (h : v.length = 16) :
    ∃ b0 b1 b2 b3 b4 b5 b6 b7 b8 b9 b10 b11 b12 b13 b14 b15,
      v = [b0, b1, b2, b3, b4, b5, b6, b7, b8, b9, b10, b11, b12, b13, b14, b15] := by
  match v, h with
  | [b0, b1, b2, b3, b4, b5, b6, b7, b8, b9, b10, b11, b12, b13, b14, b15], _ =>
    exact ⟨b0, b1, b2, b3, b4, b5, b6, b7, b8, b9, b10, b11, b12, b13, b14, b15, rfl⟩

/-- The loop of `Parse` reads back the sixteen bytes that `String` printed. -/
theorem parseLoop_String (b0 b1 b2 b3 b4 b5 b6 b7 b8 b9 b10 b11 b12 b13 b14 b15 : Nat)
    (hb : ∀ b ∈ [b0, b1, b2, b3, b4, b5, b6, b7, b8, b9, b10, b11, b12, b13, b14, b15],
      b < 256) :
    parseLoop 36
      [hexDigit (b0 / 16), hexDigit (b0 % 16), hexDigit (b1 / 16), hexDigit (b1 % 16),
       hexDigit (b2 / 16), hexDigit (b2 % 16), hexDigit (b3 / 16), hexDigit (b3 % 16), 45,
       hexDigit (b4 / 16), hexDigit (b4 % 16), hexDigit (b5 / 16), hexDigit (b5 % 16), 45,
       hexDigit (b6 / 16), hexDigit (b6 % 16), hexDigit (b7 / 16), hexDigit (b7 % 16), 45,
       hexDigit (b8 / 16), hexDigit (b8 % 16), hexDigit (b9 / 16), hexDigit (b9 % 16), 45,
       hexDigit (b10 / 16), hexDigit (b10 % 16), hexDigit (b11 / 16), hexDigit (b11 % 16),
       hexDigit (b12 / 16), hexDigit (b12 % 16), hexDigit (b13 / 16), hexDigit (b13 % 16),
       hexDigit (b14 / 16), hexDigit (b14 % 16), hexDigit (b15 / 16), hexDigit (b15 % 16)]
      0 0 (List.replicate 16 0)
    = some (some [b0, b1, b2, b3, b4, b5, b6, b7, b8, b9, b10, b11, b12, b13, b14, b15]) := by
  simp only [List.mem_cons, List.mem_singleton, forall_eq_or_imp, forall_eq,
    List.not_mem_nil, false_implies, implies_true, and_true] at hb
  obtain ⟨h0, h1, h2, h3, h4, h5, h6, h7, h8, h9, h10, h11, h12, h13, h14, h15⟩ := hb
  rw [parseLoop_pair 34 b0 _ _ _ _ h0 (by decide) (by decide) (by decide) (by simp)]
  rw [parseLoop_pair 32 b1 _ _ _ _ h1 (by decide) (by decide) (by decide) (by simp)]
  rw [parseLoop_pair 30 b2 _ _ _ _ h2 (by decide) (by decide) (by decide) (by simp)]
  rw [parseLoop_pair 28 b3 _ _ _ _ h3 (by decide) (by decide) (by decide) (by simp)]
  rw [parseLoop_dash 27 _ _ _ _ (by decide)]
  rw [parseLoop_pair 25 b4 _ _ _ _ h4 (by decide) (by decide) (by decide) (by simp)]
  rw [parseLoop_pair 23 b5 _ _ _ _ h5 (by decide) (by decide) (by decide) (by simp)]
  rw [parseLoop_dash 22 _ _ _ _ (by decide)]
  rw [parseLoop_pair 20 b6 _ _ _ _ h6 (by decide) (by decide) (by decide) (by simp)]
  rw [parseLoop_pair 18 b7 _ _ _ _ h7 (by decide) (by decide) (by decide) (by simp)]
  rw [parseLoop_dash 17 _ _ _ _ (by decide)]
  rw [parseLoop_pair 15 b8 _ _ _ _ h8 (by decide) (by decide) (by decide) (by simp)]
  rw [parseLoop_pair 13 b9 _ _ _ _ h9 (by decide) (by decide) (by decide) (by simp)]
  rw [parseLoop_dash 12 _ _ _ _ (by decide)]
  rw [parseLoop_pair 10 b10 _ _ _ _ h10 (by decide) (by decide) (by decide) (by simp)]
  rw [parseLoop_pair 8 b11 _ _ _ _ h11 (by decide) (by decide) (by decide) (by simp)]
  rw [parseLoop_pair 6 b12 _ _ _ _ h12 (by decide) (by decide) (by decide) (by simp)]
  rw [parseLoop_pair 4 b13 _ _ _ _ h13 (by decide) (by decide) (by decide) (by simp)]
  rw [parseLoop_pair 2 b14 _ _ _ _ h14 (by decide) (by decide) (by decide) (by simp)]
  rw [parseLoop_pair 0 b15 _ _ _ _ h15 (by decide) (by decide) (by decide) (by simp)]
  simp [parseLoop, List.replicate]

/-- Claim C6 (as stated, refuted): the sixteen zero bytes are a 16-byte `Uuid`, their text is
`00000000-0000-0000-0000-000000000000`, and `Parse` rejects it (version `0`), so
`UnmarshalFromString` returns `EINVAL` and the target keeps its old value. -/
theorem C6_zero_uuid_counterexample :
    Uuid.MarshalToString (some (List.replicate 16 0))
      = some (some (ascii "00000000-0000-0000-0000-000000000000"), none) ∧
    Parse (ascii "00000000-0000-0000-0000-000000000000") = some (none, some Error.EINVAL) ∧
    Uuid.UnmarshalFromString (some [7]) (some (ascii "00000000-0000-0000-0000-000000000000"))
      = some (some [7], some Error.EINVAL) := by
  decide

/-- Claim C6 (amended): for every 16-byte `Uuid` `v` whose version, the high nibble of byte 6,
is between 1 and 5, `v.MarshalToString()` returns the string `v.String()` and no error,
`Parse` of that string returns `v`, and `Uuid.UnmarshalFromString` on it returns no error
and leaves the target equal to `v`. -/
theorem C6_text_round_trip (v : List Nat) (hlen : v.length = 16) (hb : ∀ b ∈ v, b < 256)
    (hver : ∃ n, Uuid.Version (some v) = some n ∧ 1 ≤ n ∧ n ≤ 5) (t : Uuid) :
    ∃ s, Uuid.MarshalToString (some v) = some (some s, none) ∧
      Uuid.String (some v) = some s ∧
      Parse s = some (some v, none) ∧
      Uuid.UnmarshalFromString t (some s) = some (some v, none) := by
  obtain ⟨b0, b1, b2, b3, b4, b5, b6, b7, b8, b9, b10, b11, b12, b13, b14, b15, rfl⟩ :=
    list_of_length_16 v hlen
  obtain ⟨n, hn, hn1, hn5⟩ := hver
  have hloop := parseLoop_String b0 b1 b2 b3 b4 b5 b6 b7 b8 b9 b10 b11 b12 b13 b14 b15 hb
  have hstr : Uuid.String (some [b0, b1, b2, b3, b4, b5, b6, b7, b8, b9, b10, b11, b12, b13,
      b14, b15]) = some
      [hexDigit (b0 / 16), hexDigit (b0 % 16), hexDigit (b1 / 16), hexDigit (b1 % 16),
       hexDigit (b2 / 16), hexDigit (b2 % 16), hexDigit (b3 / 16), hexDigit (b3 % 16), 45,
       hexDigit (b4 / 16), hexDigit (b4 % 16), hexDigit (b5 / 16), hexDigit (b5 % 16), 45,
       hexDigit (b6 / 16), hexDigit (b6 % 16), hexDigit (b7 / 16), hexDigit (b7 % 16), 45,
       hexDigit (b8 / 16), hexDigit (b8 % 16), hexDigit (b9 / 16), hexDigit (b9 % 16), 45,
       hexDigit (b10 / 16), hexDigit (b10 % 16), hexDigit (b11 / 16), hexDigit (b11 % 16),
       hexDigit (b12 / 16), hexDigit (b12 % 16), hexDigit (b13 / 16), hexDigit (b13 % 16),
       hexDigit (b14 / 16), hexDigit (b14 % 16), hexDigit (b15 / 16), hexDigit (b15 % 16)] := by
    simp [Uuid.String, hexEncode]
  have hparse : Parse
      [hexDigit (b0 / 16), hexDigit (b0 % 16), hexDigit (b1 / 16), hexDigit (b1 % 16),
       hexDigit (b2 / 16), hexDigit (b2 % 16), hexDigit (b3 / 16), hexDigit (b3 % 16), 45,
       hexDigit (b4 / 16), hexDigit (b4 % 16), hexDigit (b5 / 16), hexDigit (b5 % 16), 45,
       hexDigit (b6 / 16), hexDigit (b6 % 16), hexDigit (b7 / 16), hexDigit (b7 % 16), 45,
       hexDigit (b8 / 16), hexDigit (b8 % 16), hexDigit (b9 / 16), hexDigit (b9 % 16), 45,
       hexDigit (b10 / 16), hexDigit (b10 % 16), hexDigit (b11 / 16), hexDigit (b11 % 16),
       hexDigit (b12 / 16), hexDigit (b12 % 16), hexDigit (b13 / 16), hexDigit (b13 % 16),
       hexDigit (b14 / 16), hexDigit (b14 % 16), hexDigit (b15 / 16), hexDigit (b15 % 16)]
      = some (some [b0, b1, b2, b3, b4, b5, b6, b7, b8, b9, b10, b11, b12, b13, b14, b15],
          none) := by
    have hv : ¬ (n < 1 ∨ n > 5) := by omega
    simp only [Parse, List.length_cons, List.length_nil, Nat.reduceAdd, Nat.reduceEqDiff,
      false_and, if_false, ne_eq, not_true_eq_false, hloop, hn, hv]
  refine ⟨_, ?_, hstr, hparse, ?_⟩
  · simp only [Uuid.MarshalToString, hstr, List.length_cons, List.length_nil]
    simp
  · simp only [Uuid.UnmarshalFromString, hparse, List.length_cons, List.length_nil]
    simp

theorem C6_text_round_trip_witness :
    ∃ s, Uuid.MarshalToString
        (some [107, 167, 184, 16, 157, 173, 17, 209, 128, 180, 0, 192, 79, 212, 48, 200])
          = some (some s, none) ∧
      Uuid.String (some [107, 167, 184, 16, 157, 173, 17, 209, 128, 180, 0, 192, 79, 212, 48,
        200]) = some s ∧
      Parse s = some (some [107, 167, 184, 16, 157, 173, 17, 209, 128, 180, 0, 192, 79, 212,
        48, 200], none) ∧
      Uuid.UnmarshalFromString none (some s)
        = some (some [107, 167, 184, 16, 157, 173, 17, 209, 128, 180, 0, 192, 79, 212, 48,
            200], none) :=
  C6_text_round_trip [107, 167, 184, 16, 157, 173, 17, 209, 128, 180, 0, 192, 79, 212, 48, 200]
    (by decide) (by decide) ⟨1, by decide, by decide, by decide⟩ none

/-- Claim C7 (the code at the failing input): `Uuid.UnmarshalFromString` on a pointer to the
empty string returns no error, and a target that holds sixteen bytes holds the same sixteen
bytes afterwards, not the zero (empty) value. -/
theorem C7_empty_string_leaves_target :
    Uuid.UnmarshalFromString
        (some [107, 167, 184, 16, 157, 173, 17, 209, 128, 180, 0, 192, 79, 212, 48, 200])
        (some [])
      = some (some [107, 167, 184, 16, 157, 173, 17, 209, 128, 180, 0, 192, 79, 212, 48, 200],
          none) ∧
    sliceLen (some [107, 167, 184, 16, 157, 173, 17, 209, 128, 180, 0, 192, 79, 212, 48, 200])
      ≠ 0 := by
  decide

/-! ## Theorems: `Uint128` text import -/

theorem le_foldl_digits : ∀ (s : List Nat) (n : Nat),
    n ≤ s.foldl (fun n c => n * 10 + (c - 48)) n
  | [], n => Nat.le_refl n
  | c :: rest, n => by
    have h := le_foldl_digits rest (n * 10 + (c - 48))
    simp only [List.foldl_cons]
    omega

/-- The digit loop succeeds exactly on digits whose number stays within `maxVal`, and then
returns that number. -/
theorem parseUintLoop_ok (M : Nat) : ∀ (s : List Nat) (n : Nat), n ≤ M →
    (((parseUintLoop M s n).2 = none ↔
      (∀ c ∈ s, 48 ≤ c ∧ c ≤ 57) ∧ s.foldl (fun n c => n * 10 + (c - 48)) n ≤ M) ∧
    ((parseUintLoop M s n).2 = none →
      (parseUintLoop M s n).1 = s.foldl (fun n c => n * 10 + (c - 48)) n))
  | [], n, hn => by simp [parseUintLoop, hn]
  | c :: rest, n, hn => by
    by_cases hd : 48 ≤ c ∧ c ≤ 57
    · by_cases hov : M < n * 10 + (c - 48)
      · have hge := le_foldl_digits rest (n * 10 + (c - 48))
        simp only [parseUintLoop, if_pos hd, if_pos hov, List.foldl_cons]
        refine ⟨⟨fun h => (by cases h), fun h => ?_⟩, fun h => (by cases h)⟩
        omega
      · obtain ⟨ih1, ih2⟩ := parseUintLoop_ok M rest (n * 10 + (c - 48)) (by omega)
        simp only [parseUintLoop, if_pos hd, if_neg hov, List.foldl_cons, List.mem_cons,
          forall_eq_or_imp]
        refine ⟨?_, ih2⟩
        rw [ih1]
        constructor
        · intro h; exact ⟨⟨hd, h.1⟩, h.2⟩
        · intro h; exact ⟨h.1.2, h.2⟩
    · simp only [parseUintLoop, if_neg hd]
      refine ⟨⟨fun h => (by cases h), fun h => ?_⟩, fun h => (by cases h)⟩
      exact absurd (h.1 c (List.mem_cons_self c rest)) hd

theorem ParseUint_ok (a : List Nat) :
    ((ParseUint a 64).2 = none ↔ IsDecimalUint64 a) ∧
    ((ParseUint a 64).2 = none → (ParseUint a 64).1 = decimalValue a) := by
  unfold ParseUint IsDecimalUint64 decimalValue
  by_cases h0 : a.length = 0
  · have : a = [] := List.length_eq_zero.mp h0
    simp [this]
  · have hne : a ≠ [] := fun h => h0 (by rw [h]; rfl)
    obtain ⟨h1, h2⟩ := parseUintLoop_ok (2 ^ 64 - 1) a 0 (Nat.zero_le _)
    simp only [if_neg h0]
    refine ⟨?_, h2⟩
    rw [h1]
    constructor
    · intro h; exact ⟨hne, h⟩
    · intro h; exact h.2

theorem splitByte_ne_nil : ∀ s : List Nat, splitByte 45 s ≠ []
  | [] => by simp [splitByte]
  | c :: rest => by
    unfold splitByte
    split
    · simp
    · split <;> simp

theorem splitByte_one : ∀ (s b : List Nat), splitByte 45 s = [b] → s = b ∧ 45 ∉ b
  | [], b, h => by
    simp only [splitByte, List.cons.injEq, and_true] at h
    subst h
    simp
  | c :: rest, b, h => by
    by_cases hc : c = 45
    · simp only [splitByte, if_pos hc, List.cons.injEq] at h
      exact absurd h.2 (splitByte_ne_nil rest)
    · simp only [splitByte, if_neg hc] at h
      cases hr : splitByte 45 rest with
      | nil => exact absurd hr (splitByte_ne_nil rest)
      | cons hd tl =>
        rw [hr] at h
        simp only [List.cons.injEq] at h
        obtain ⟨rfl, rfl⟩ := h
        obtain ⟨h1, h2⟩ := splitByte_one rest hd hr
        subst h1
        exact ⟨rfl, by simp [h2, Ne.symm hc]⟩

theorem splitByte_two : ∀ (s a b : List Nat), splitByte 45 s = [a, b] →
    s = a ++ 45 :: b ∧ 45 ∉ a ∧ 45 ∉ b
  | [], a, b, h => by simp [splitByte] at h
  | c :: rest, a, b, h => by
    by_cases hc : c = 45
    · simp only [splitByte, if_pos hc, List.cons.injEq] at h
      obtain ⟨rfl, h2⟩ := h
      obtain ⟨h3, h4⟩ := splitByte_one rest b h2
      subst h3
      exact ⟨by simp [hc], by simp, h4⟩
    · simp only [splitByte, if_neg hc] at h
      cases hr : splitByte 45 rest with
      | nil => exact absurd hr (splitByte_ne_nil rest)
      | cons hd tl =>
        rw [hr] at h
        simp only [List.cons.injEq] at h
        obtain ⟨rfl, rfl⟩ := h
        obtain ⟨h1, h2, h3⟩ := splitByte_two rest hd b hr
        subst h1
        exact ⟨rfl, by simp [h2, Ne.symm hc], h3⟩

theorem splitByte_no_sep : ∀ a : List Nat, 45 ∉ a → splitByte 45 a = [a]
  | [], _ => rfl
  | c :: rest, h => by
    simp only [List.mem_cons, not_or] at h
    have hc : ¬ c = 45 := fun e => h.1 e.symm
    simp only [splitByte, if_neg hc, splitByte_no_sep rest h.2]

theorem splitByte_append : ∀ (a b : List Nat), 45 ∉ a →
    splitByte 45 (a ++ 45 :: b) = a :: splitByte 45 b
  | [], b, _ => by simp [splitByte]
  | c :: rest, b, h => by
    simp only [List.mem_cons, not_or] at h
    have hc : ¬ c = 45 := fun e => h.1 e.symm
    have ih := splitByte_append rest b h.2
    show splitByte 45 (c :: (rest ++ 45 :: b)) = _
    simp only [splitByte, if_neg hc, ih]

theorem no_sep_of_decimal {a : List Nat} (h : IsDecimalUint64 a) : 45 ∉ a := by
  intro hm
  have := h.2.1 45 hm
  omega

/-- A well-formed text is parsed, to the two numbers that its halves denote. -/
theorem ParseUint128_of_text (a b : List Nat) (ha : IsDecimalUint64 a)
    (hb : IsDecimalUint64 b) :
    ParseUint128 (a ++ 45 :: b) = ((decimalValue a, decimalValue b), none) := by
  have hsplit : splitByte 45 (a ++ 45 :: b) = [a, b] := by
    rw [splitByte_append a b (no_sep_of_decimal ha), splitByte_no_sep b (no_sep_of_decimal hb)]
  have ha1 := (ParseUint_ok a).1.mpr ha
  have ha2 := (ParseUint_ok a).2 ha1
  have hb1 := (ParseUint_ok b).1.mpr hb
  have hb2 := (ParseUint_ok b).2 hb1
  have ea : ParseUint a 64 = (decimalValue a, none) := Prod.ext ha2 ha1
  have eb : ParseUint b 64 = (decimalValue b, none) := Prod.ext hb2 hb1
  simp only [ParseUint128, hsplit, ea, eb]

theorem ParseUint128_ok (s : List Nat) :
    (ParseUint128 s).2 = none ↔ IsUint128Text s := by
  constructor
  · intro h
    unfold ParseUint128 at h
    split at h
    · rename_i s0 s1 hsplit
      obtain ⟨hs, _, _⟩ := splitByte_two s s0 s1 hsplit
      split at h
      · cases h
      · rename_i v0 h0
        split at h
        · cases h
        · rename_i v1 h1
          have e0 : (ParseUint s0 64).2 = none := by rw [h0]
          have e1 : (ParseUint s1 64).2 = none := by rw [h1]
          exact ⟨s0, s1, hs, (ParseUint_ok s0).1.mp e0, (ParseUint_ok s1).1.mp e1⟩
    · cases h
  · rintro ⟨a, b, rfl, ha, hb⟩
    rw [ParseUint128_of_text a b ha hb]

/-- Claim C11: `ParseUint128(s)` succeeds exactly when `s` has the form `a + "-" + b` with
`a` and `b` each a non-empty string of ASCII decimal digits that denotes a value of at most
`2^64 - 1`.  On every other string it returns an error, and `Uint128.UnmarshalFromString`
on such a string, when it is not empty, returns that error and leaves the target
unchanged. -/
theorem C11_parse_uint128_accepts (s : List Nat) (t : Uint128) :
    ((ParseUint128 s).2 = none ↔ IsUint128Text s) ∧
    (¬ IsUint128Text s → ∃ e, (ParseUint128 s).2 = some e ∧
      (s ≠ [] → Uint128.UnmarshalFromString t (some s) = (t, some e))) := by
  refine ⟨ParseUint128_ok s, fun hbad => ?_⟩
  have hne : (ParseUint128 s).2 ≠ none := fun h => hbad ((ParseUint128_ok s).mp h)
  cases he : (ParseUint128 s).2 with
  | none => exact absurd he hne
  | some e =>
    refine ⟨e, rfl, fun hs => ?_⟩
    have hlen : s.length ≠ 0 := fun h => hs (List.length_eq_zero.mp h)
    have hp : ParseUint128 s = ((ParseUint128 s).1, some e) := Prod.ext rfl he
    simp only [Uint128.UnmarshalFromString, if_neg hlen]
    rw [hp]

/-! ## Theorems: binary export, absent input -/

/-- Claim C12: binary export is fixed-size little-endian.  For every `Uint128` `u`,
`u.MarshalToBytes()` returns no error and a buffer of exactly 16 bytes whose byte `8k + i`
is `(u[k] >> 8i) mod 256` for `k` in 0, 1 and `i < 8`; for every `Uint16` `w`,
`w.MarshalToBytes()` returns no error and exactly the 2 bytes `w mod 256`, `w >> 8`. -/
theorem C12_binary_export_layout (u : Uint128) (w : Nat) (hw : w < 2 ^ 16) :
    (∃ buf, Uint128.MarshalToBytes u = some (buf, none) ∧ buf.length = 16 ∧
      ∀ i, i < 8 → buf[i]? = some ((u.1 >>> (8 * i)) % 256) ∧
        buf[8 + i]? = some ((u.2 >>> (8 * i)) % 256)) ∧
    Uint16.MarshalToBytes w = some ([w % 256, w >>> 8], none) := by
  refine ⟨⟨_, marshal_bytes_128 u, rfl, ?_⟩, ?_⟩
  · intro i hi
    interval_cases i <;> simp
  · rw [marshal_bytes_16]
    have : (w >>> 8) % 256 = w >>> 8 := by
      rw [Nat.shiftRight_eq_div_pow]
      apply Nat.mod_eq_of_lt
      norm_num at hw ⊢
      omega
    rw [this]

theorem C12_binary_export_layout_witness :
    (∃ buf, Uint128.MarshalToBytes (258, 2 ^ 64 - 1) = some (buf, none) ∧ buf.length = 16 ∧
      ∀ i, i < 8 → buf[i]? = some ((258 >>> (8 * i)) % 256) ∧
        buf[8 + i]? = some (((2 ^ 64 - 1) >>> (8 * i)) % 256)) ∧
    Uint16.MarshalToBytes 4660 = some ([4660 % 256, 4660 >>> 8], none) :=
  C12_binary_export_layout (258, 2 ^ 64 - 1) 4660 (by decide)

/-- Claim C20: on absent input the importers return no error and leave the target as it
was: a `nil` `*string` given to `UnmarshalFromString` and a `nil` `[]byte` given to
`UnmarshalFromBytes`, for `Uint128`, `Uint16` and `Uuid`, and a `nil` `*uint32` given to
`Uint16.UnmarshalFromUint32`. -/
theorem C20_absent_input_keeps_target (u : Uint128) (w : Nat) (uuid : Uuid) :
    Uint128.UnmarshalFromString u none = (u, none) ∧
    Uint128.UnmarshalFromBytes u none = some (u, none) ∧
    Uint16.UnmarshalFromString w none = (w, none) ∧
    Uint16.UnmarshalFromBytes w none = some (w, none) ∧
    Uuid.UnmarshalFromString uuid none = some (uuid, none) ∧
    Uuid.UnmarshalFromBytes uuid none = (uuid, none) ∧
    Uint16.UnmarshalFromUint32 w none = (w, none) :=
  ⟨rfl, rfl, rfl, rfl, rfl, rfl, rfl⟩

/-! ## Theorems: `Uint128` text round trip -/

/-- The digit loop writes, in front of what is there, a non-empty string of digits that
denotes the number. -/
theorem formatDigits_spec : ∀ (fuel v : Nat) (acc : List Nat), v < fuel →
    ∃ ds, formatDigits fuel v acc = ds ++ acc ∧ ds ≠ [] ∧
      (∀ c ∈ ds, 48 ≤ c ∧ c ≤ 57) ∧ ds.foldl (fun n c => n * 10 + (c - 48)) 0 = v
  | 0, _, _, h => absurd h (Nat.not_lt_zero _)
  | fuel + 1, v, acc, h => by
    by_cases hv : v < 10
    · refine ⟨[48 + v], by simp [formatDigits, hv], by simp, ?_, by simp⟩
      intro c hc
      simp only [List.mem_singleton] at hc
      omega
    · obtain ⟨ds, h1, _, h3, h4⟩ :=
        formatDigits_spec fuel (v / 10) ((48 + v % 10) :: acc) (by omega)
      refine ⟨ds ++ [48 + v % 10], ?_, by simp, ?_, ?_⟩
      · simp only [formatDigits, if_neg hv, h1, List.append_assoc, List.singleton_append]
      · intro c hc
        rcases List.mem_append.mp hc with hc | hc
        · exact h3 c hc
        · simp only [List.mem_singleton] at hc
          omega
      · simp only [List.foldl_append, h4, List.foldl_cons, List.foldl_nil]
        omega

theorem FormatUint_decimal (v : Nat) (hv : v < 2 ^ 64) :
    IsDecimalUint64 (FormatUint v) ∧ decimalValue (FormatUint v) = v := by
  obtain ⟨ds, h1, h2, h3, h4⟩ := formatDigits_spec (v + 1) v [] (Nat.lt_succ_self v)
  rw [List.append_nil] at h1
  unfold FormatUint IsDecimalUint64 decimalValue
  rw [h1, h4]
  exact ⟨⟨h2, h3, by omega⟩, rfl⟩

/-- Claim C21: `Uint128` text round trip.  For every `Uint128` `u` (two 64-bit words),
`u.String()` is the decimal rendering of `u[0]`, one `-`, and the decimal rendering of
`u[1]`; `ParseUint128(u.String())` returns `(u, nil)`; and `Uint128.UnmarshalFromString` on
the result of `u.MarshalToString()` returns no error and leaves the target equal to `u`. -/
theorem C21_uint128_text_round_trip (u : Uint128) (hu : u.InRange) (t : Uint128) :
    Uint128.String u = FormatUint u.1 ++ 45 :: FormatUint u.2 ∧
    (IsDecimalUint64 (FormatUint u.1) ∧ decimalValue (FormatUint u.1) = u.1) ∧
    (IsDecimalUint64 (FormatUint u.2) ∧ decimalValue (FormatUint u.2) = u.2) ∧
    ParseUint128 (Uint128.String u) = (u, none) ∧
    Uint128.MarshalToString u = (some (Uint128.String u), none) ∧
    Uint128.UnmarshalFromString t (Uint128.MarshalToString u).1 = (u, none) := by
  obtain ⟨ha, hva⟩ := FormatUint_decimal u.1 hu.1
  obtain ⟨hb, hvb⟩ := FormatUint_decimal u.2 hu.2
  have hstr : Uint128.String u = FormatUint u.1 ++ 45 :: FormatUint u.2 := by
    simp [Uint128.String]
  have hparse : ParseUint128 (Uint128.String u) = (u, none) := by
    rw [hstr, ParseUint128_of_text _ _ ha hb, hva, hvb]
  have hlen : (Uint128.String u).length ≠ 0 := by
    rw [hstr]; simp
  refine ⟨hstr, ⟨ha, hva⟩, ⟨hb, hvb⟩, hparse, rfl, ?_⟩
  simp only [Uint128.MarshalToString, Uint128.UnmarshalFromString, if_neg hlen, hparse]

theorem C21_uint128_text_round_trip_witness :
    ParseUint128 (Uint128.String (2 ^ 64 - 1, 0)) = ((2 ^ 64 - 1, 0), none) ∧
    Uint128.UnmarshalFromString (7, 7) (Uint128.MarshalToString (2 ^ 64 - 1, 0)).1
      = ((2 ^ 64 - 1, 0), none) :=
  have h := C21_uint128_text_round_trip (2 ^ 64 - 1, 0) (by unfold Uint128.InRange; decide)
    (7, 7)
  ⟨h.2.2.2.1, h.2.2.2.2.2⟩

/-! ## Theorems: canonical values of `Parse` -/

theorem hexValue_some {c v : Nat} (h : hexValue c = some v) :
    c < 128 ∧ v < 16 ∧ hexDigit v = lowerHex c := by
  unfold hexValue at h
  unfold hexDigit lowerHex
  split_ifs at h with h1 h2 h3
  all_goals simp only [Option.some.injEq] at h
  all_goals subst h
  all_goals refine ⟨by omega, by omega, ?_⟩
  all_goals split_ifs <;> omega

set_option maxRecDepth 100000 in
theorem nibbles_split : ∀ v0, v0 < 16 → ∀ v1, v1 < 16 →
    (((v0 <<< 4) % 256) ||| v1) < 256 ∧ (((v0 <<< 4) % 256) ||| v1) / 16 = v0 ∧
      (((v0 <<< 4) % 256) ||| v1) % 16 = v1 := by
  decide

/-- Two rounds of the loop on two hexadecimal digits in either case: they write one byte,
whose two lower-case digits are the two digits read. -/
theorem parseLoop_hexpair (c d : Nat) (hc : IsHexDigit c) (hd : IsHexDigit d) :
    ∃ b, b < 256 ∧ hexDigit (b / 16) = lowerHex c ∧ hexDigit (b % 16) = lowerHex d ∧
      ∀ (f : Nat) (r : List Nat) (i j : Nat) (u : List Nat),
        ¬ (i = 8 ∨ i = 13 ∨ i = 18 ∨ i = 23) →
        ¬ (i + 1 = 8 ∨ i + 1 = 13 ∨ i + 1 = 18 ∨ i + 1 = 23) →
        j % 2 = 0 → j / 2 < u.length →
        parseLoop (f + 2) (c :: d :: r) i j u
          = parseLoop f r (i + 2) (j + 2) (u.set (j / 2) b) := by
  cases hvc : hexValue c with
  | none => exact absurd hc ((hexValue_none_iff c).mp hvc)
  | some v0 =>
    cases hvd : hexValue d with
    | none => exact absurd hd ((hexValue_none_iff d).mp hvd)
    | some v1 =>
      obtain ⟨hc1, hv0, hl0⟩ := hexValue_some hvc
      obtain ⟨hd1, hv1, hl1⟩ := hexValue_some hvd
      obtain ⟨n1, n2, n3⟩ := nibbles_split v0 hv0 v1 hv1
      refine ⟨((v0 <<< 4) % 256) ||| v1, n1, by rw [n2]; exact hl0, by rw [n3]; exact hl1, ?_⟩
      intro f r i j u hi hi1 hj hlt
      have e1 : j &&& 1 = 0 := by rw [Nat.and_one_is_mod]; exact hj
      have e2 : ¬ ((j + 1) &&& 1 = 0) := by rw [Nat.and_one_is_mod]; omega
      have e3 : j >>> 1 = j / 2 := by rw [Nat.shiftRight_eq_div_pow, Nat.pow_one]
      have e4 : (j + 1) >>> 1 = j / 2 := by rw [Nat.shiftRight_eq_div_pow]; omega
      rw [parseLoop_low (f + 1) _ _ i j u hc1, if_neg hi, hvc]
      simp only [e1, if_true, e3, setIndex, if_pos hlt]
      rw [parseLoop_low f _ _ (i + 1) (j + 1) _ hd1, if_neg hi1, hvd]
      simp only [e2, if_false, e4]
      rw [List.getElem?_eq_getElem (by rw [List.length_set]; exact hlt)]
      simp only [List.getElem_set_self, List.set_set]

theorem cons_of_length_succ {n : Nat} (v : List Nat) (h : v.length = n + 1) :
    ∃ c r, v = c :: r ∧ r.length = n := by
  cases v with
  | nil => simp at h
  | cons c r => exact ⟨c, r, rfl, by simpa using h⟩

theorem list_of_length_36 (v : List Nat) (h : v.length = 36) :
    ∃ c0 c1 c2 c3 c4 c5 c6 c7 c8 c9 c10 c11 c12 c13 c14 c15 c16 c17
      c18 c19 c20 c21 c22 c23 c24 c25 c26 c27 c28 c29 c30 c31 c32 c33 c34 c35,
      v = [
      c0, c1, c2, c3, c4, c5, c6, c7, c8, c9, c10, c11, c12, c13, c14, c15, c16, c17, c18,
      c19, c20, c21, c22, c23, c24, c25, c26, c27, c28, c29, c30, c31, c32, c33, c34, c35] := by
  obtain ⟨c0, r0, rfl, g0⟩ := cons_of_length_succ (n := 35) v h
  obtain ⟨c1, r1, rfl, g1⟩ := cons_of_length_succ (n := 34) r0 g0
  obtain ⟨c2, r2, rfl, g2⟩ := cons_of_length_succ (n := 33) r1 g1
  obtain ⟨c3, r3, rfl, g3⟩ := cons_of_length_succ (n := 32) r2 g2
  obtain ⟨c4, r4, rfl, g4⟩ := cons_of_length_succ (n := 31) r3 g3
  obtain ⟨c5, r5, rfl, g5⟩ := cons_of_length_succ (n := 30) r4 g4
  obtain ⟨c6, r6, rfl, g6⟩ := cons_of_length_succ (n := 29) r5 g5
  obtain ⟨c7, r7, rfl, g7⟩ := cons_of_length_succ (n := 28) r6 g6
  obtain ⟨c8, r8, rfl, g8⟩ := cons_of_length_succ (n := 27) r7 g7
  obtain ⟨c9, r9, rfl, g9⟩ := cons_of_length_succ (n := 26) r8 g8
  obtain ⟨c10, r10, rfl, g10⟩ := cons_of_length_succ (n := 25) r9 g9
  obtain ⟨c11, r11, rfl, g11⟩ := cons_of_length_succ (n := 24) r10 g10
  obtain ⟨c12, r12, rfl, g12⟩ := cons_of_length_succ (n := 23) r11 g11
  obtain ⟨c13, r13, rfl, g13⟩ := cons_of_length_succ (n := 22) r12 g12
  obtain ⟨c14, r14, rfl, g14⟩ := cons_of_length_succ (n := 21) r13 g13
  obtain ⟨c15, r15, rfl, g15⟩ := cons_of_length_succ (n := 20) r14 g14
  obtain ⟨c16, r16, rfl, g16⟩ := cons_of_length_succ (n := 19) r15 g15
  obtain ⟨c17, r17, rfl, g17⟩ := cons_of_length_succ (n := 18) r16 g16
  obtain ⟨c18, r18, rfl, g18⟩ := cons_of_length_succ (n := 17) r17 g17
  obtain ⟨c19, r19, rfl, g19⟩ := cons_of_length_succ (n := 16) r18 g18
  obtain ⟨c20, r20, rfl, g20⟩ := cons_of_length_succ (n := 15) r19 g19
  obtain ⟨c21, r21, rfl, g21⟩ := cons_of_length_succ (n := 14) r20 g20
  obtain ⟨c22, r22, rfl, g22⟩ := cons_of_length_succ (n := 13) r21 g21
  obtain ⟨c23, r23, rfl, g23⟩ := cons_of_length_succ (n := 12) r22 g22
  obtain ⟨c24, r24, rfl, g24⟩ := cons_of_length_succ (n := 11) r23 g23
  obtain ⟨c25, r25, rfl, g25⟩ := cons_of_length_succ (n := 10) r24 g24
  obtain ⟨c26, r26, rfl, g26⟩ := cons_of_length_succ (n := 9) r25 g25
  obtain ⟨c27, r27, rfl, g27⟩ := cons_of_length_succ (n := 8) r26 g26
  obtain ⟨c28, r28, rfl, g28⟩ := cons_of_length_succ (n := 7) r27 g27
  obtain ⟨c29, r29, rfl, g29⟩ := cons_of_length_succ (n := 6) r28 g28
  obtain ⟨c30, r30, rfl, g30⟩ := cons_of_length_succ (n := 5) r29 g29
  obtain ⟨c31, r31, rfl, g31⟩ := cons_of_length_succ (n := 4) r30 g30
  obtain ⟨c32, r32, rfl, g32⟩ := cons_of_length_succ (n := 3) r31 g31
  obtain ⟨c33, r33, rfl, g33⟩ := cons_of_length_succ (n := 2) r32 g32
  obtain ⟨c34, r34, rfl, g34⟩ := cons_of_length_succ (n := 1) r33 g33
  obtain ⟨c35, r35, rfl, g35⟩ := cons_of_length_succ (n := 0) r34 g34
  have hnil : r35 = [] := List.length_eq_zero.mp g35
  subst hnil
  exact ⟨c0, c1, c2, c3, c4, c5, c6, c7, c8, c9, c10, c11, c12, c13, c14, c15, c16, c17,
    c18, c19, c20, c21, c22, c23, c24, c25, c26, c27, c28, c29, c30, c31, c32, c33, c34, c35, rfl⟩

/-- On a string whose 36 bytes are all in place, the loop of `Parse` ends with 16 bytes whose
text is the string in lower case. -/
theorem parseLoop_canonical (c0 c1 c2 c3 c4 c5 c6 c7 c8 c9 c10 c11 c12 c13 c14 c15 c16 c17
    c18 c19 c20 c21 c22 c23 c24 c25 c26 c27 c28 c29 c30 c31 c32 c33 c34 c35 : Nat)
    (hgood : ∀ k c, ([
      c0, c1, c2, c3, c4, c5, c6, c7, c8, c9, c10, c11, c12, c13, c14, c15, c16, c17, c18,
      c19, c20, c21, c22, c23, c24, c25, c26, c27, c28, c29, c30, c31, c32, c33, c34, c35] : List Nat)[k]? = some c →
      (IsDashIndex k → c = 45) ∧ (¬ IsDashIndex k → IsHexDigit c)) :
    ∃ b : List Nat, b.length = 16 ∧ (∀ x ∈ b, x < 256) ∧
      parseLoop 36 [
      c0, c1, c2, c3, c4, c5, c6, c7, c8, c9, c10, c11, c12, c13, c14, c15, c16, c17, c18,
      c19, c20, c21, c22, c23, c24, c25, c26, c27, c28, c29, c30, c31, c32, c33, c34, c35] 0 0 (List.replicate 16 0) = some (some b) ∧
      Uuid.String (some b) = some (List.map lowerHex [
      c0, c1, c2, c3, c4, c5, c6, c7, c8, c9, c10, c11, c12, c13, c14, c15, c16, c17, c18,
      c19, c20, c21, c22, c23, c24, c25, c26, c27, c28, c29, c30, c31, c32, c33, c34, c35]) := by
  have d8 : c8 = 45 := (hgood 8 c8 rfl).1 (by unfold IsDashIndex; decide)
  have d13 : c13 = 45 := (hgood 13 c13 rfl).1 (by unfold IsDashIndex; decide)
  have d18 : c18 = 45 := (hgood 18 c18 rfl).1 (by unfold IsDashIndex; decide)
  have d23 : c23 = 45 := (hgood 23 c23 rfl).1 (by unfold IsDashIndex; decide)
  have x0 : IsHexDigit c0 := (hgood 0 c0 rfl).2 (by unfold IsDashIndex; decide)
  have x1 : IsHexDigit c1 := (hgood 1 c1 rfl).2 (by unfold IsDashIndex; decide)
  have x2 : IsHexDigit c2 := (hgood 2 c2 rfl).2 (by unfold IsDashIndex; decide)
  have x3 : IsHexDigit c3 := (hgood 3 c3 rfl).2 (by unfold IsDashIndex; decide)
  have x4 : IsHexDigit c4 := (hgood 4 c4 rfl).2 (by unfold IsDashIndex; decide)
  have x5 : IsHexDigit c5 := (hgood 5 c5 rfl).2 (by unfold IsDashIndex; decide)
  have x6 : IsHexDigit c6 := (hgood 6 c6 rfl).2 (by unfold IsDashIndex; decide)
  have x7 : IsHexDigit c7 := (hgood 7 c7 rfl).2 (by unfold IsDashIndex; decide)
  have x9 : IsHexDigit c9 := (hgood 9 c9 rfl).2 (by unfold IsDashIndex; decide)
  have x10 : IsHexDigit c10 := (hgood 10 c10 rfl).2 (by unfold IsDashIndex; decide)
  have x11 : IsHexDigit c11 := (hgood 11 c11 rfl).2 (by unfold IsDashIndex; decide)
  have x12 : IsHexDigit c12 := (hgood 12 c12 rfl).2 (by unfold IsDashIndex; decide)
  have x14 : IsHexDigit c14 := (hgood 14 c14 rfl).2 (by unfold IsDashIndex; decide)
  have x15 : IsHexDigit c15 := (hgood 15 c15 rfl).2 (by unfold IsDashIndex; decide)
  have x16 : IsHexDigit c16 := (hgood 16 c16 rfl).2 (by unfold IsDashIndex; decide)
  have x17 : IsHexDigit c17 := (hgood 17 c17 rfl).2 (by unfold IsDashIndex; decide)
  have x19 : IsHexDigit c19 := (hgood 19 c19 rfl).2 (by unfold IsDashIndex; decide)
  have x20 : IsHexDigit c20 := (hgood 20 c20 rfl).2 (by unfold IsDashIndex; decide)
  have x21 : IsHexDigit c21 := (hgood 21 c21 rfl).2 (by unfold IsDashIndex; decide)
  have x22 : IsHexDigit c22 := (hgood 22 c22 rfl).2 (by unfold IsDashIndex; decide)
  have x24 : IsHexDigit c24 := (hgood 24 c24 rfl).2 (by unfold IsDashIndex; decide)
  have x25 : IsHexDigit c25 := (hgood 25 c25 rfl).2 (by unfold IsDashIndex; decide)
  have x26 : IsHexDigit c26 := (hgood 26 c26 rfl).2 (by unfold IsDashIndex; decide)
  have x27 : IsHexDigit c27 := (hgood 27 c27 rfl).2 (by unfold IsDashIndex; decide)
  have x28 : IsHexDigit c28 := (hgood 28 c28 rfl).2 (by unfold IsDashIndex; decide)
  have x29 : IsHexDigit c29 := (hgood 29 c29 rfl).2 (by unfold IsDashIndex; decide)
  have x30 : IsHexDigit c30 := (hgood 30 c30 rfl).2 (by unfold IsDashIndex; decide)
  have x31 : IsHexDigit c31 := (hgood 31 c31 rfl).2 (by unfold IsDashIndex; decide)
  have x32 : IsHexDigit c32 := (hgood 32 c32 rfl).2 (by unfold IsDashIndex; decide)
  have x33 : IsHexDigit c33 := (hgood 33 c33 rfl).2 (by unfold IsDashIndex; decide)
  have x34 : IsHexDigit c34 := (hgood 34 c34 rfl).2 (by unfold IsDashIndex; decide)
  have x35 : IsHexDigit c35 := (hgood 35 c35 rfl).2 (by unfold IsDashIndex; decide)
  subst d8
  subst d13
  subst d18
  subst d23
  obtain ⟨b0, l0, p0, q0, e0⟩ := parseLoop_hexpair c0 c1 x0 x1
  obtain ⟨b1, l1, p1, q1, e1⟩ := parseLoop_hexpair c2 c3 x2 x3
  obtain ⟨b2, l2, p2, q2, e2⟩ := parseLoop_hexpair c4 c5 x4 x5
  obtain ⟨b3, l3, p3, q3, e3⟩ := parseLoop_hexpair c6 c7 x6 x7
  obtain ⟨b4, l4, p4, q4, e4⟩ := parseLoop_hexpair c9 c10 x9 x10
  obtain ⟨b5, l5, p5, q5, e5⟩ := parseLoop_hexpair c11 c12 x11 x12
  obtain ⟨b6, l6, p6, q6, e6⟩ := parseLoop_hexpair c14 c15 x14 x15
  obtain ⟨b7, l7, p7, q7, e7⟩ := parseLoop_hexpair c16 c17 x16 x17
  obtain ⟨b8, l8, p8, q8, e8⟩ := parseLoop_hexpair c19 c20 x19 x20
  obtain ⟨b9, l9, p9, q9, e9⟩ := parseLoop_hexpair c21 c22 x21 x22
  obtain ⟨b10, l10, p10, q10, e10⟩ := parseLoop_hexpair c24 c25 x24 x25
  obtain ⟨b11, l11, p11, q11, e11⟩ := parseLoop_hexpair c26 c27 x26 x27
  obtain ⟨b12, l12, p12, q12, e12⟩ := parseLoop_hexpair c28 c29 x28 x29
  obtain ⟨b13, l13, p13, q13, e13⟩ := parseLoop_hexpair c30 c31 x30 x31
  obtain ⟨b14, l14, p14, q14, e14⟩ := parseLoop_hexpair c32 c33 x32 x33
  obtain ⟨b15, l15, p15, q15, e15⟩ := parseLoop_hexpair c34 c35 x34 x35
  have h45 : lowerHex 45 = 45 := by decide
  refine ⟨[b0, b1, b2, b3, b4, b5, b6, b7, b8, b9, b10, b11, b12, b13, b14, b15], rfl, ?_, ?_, ?_⟩
  · intro x hx
    simp only [List.mem_cons, List.mem_singleton, List.not_mem_nil, or_false] at hx
    rcases hx with rfl | rfl | rfl | rfl | rfl | rfl | rfl | rfl | rfl | rfl | rfl | rfl | rfl | rfl | rfl | rfl <;> assumption
  · rw [e0 34 _ _ _ _ (by decide) (by decide) (by decide) (by simp)]
    rw [e1 32 _ _ _ _ (by decide) (by decide) (by decide) (by simp)]
    rw [e2 30 _ _ _ _ (by decide) (by decide) (by decide) (by simp)]
    rw [e3 28 _ _ _ _ (by decide) (by decide) (by decide) (by simp)]
    rw [parseLoop_dash 27 _ _ _ _ (by decide)]
    rw [e4 25 _ _ _ _ (by decide) (by decide) (by decide) (by simp)]
    rw [e5 23 _ _ _ _ (by decide) (by decide) (by decide) (by simp)]
    rw [parseLoop_dash 22 _ _ _ _ (by decide)]
    rw [e6 20 _ _ _ _ (by decide) (by decide) (by decide) (by simp)]
    rw [e7 18 _ _ _ _ (by decide) (by decide) (by decide) (by simp)]
    rw [parseLoop_dash 17 _ _ _ _ (by decide)]
    rw [e8 15 _ _ _ _ (by decide) (by decide) (by decide) (by simp)]
    rw [e9 13 _ _ _ _ (by decide) (by decide) (by decide) (by simp)]
    rw [parseLoop_dash 12 _ _ _ _ (by decide)]
    rw [e10 10 _ _ _ _ (by decide) (by decide) (by decide) (by simp)]
    rw [e11 8 _ _ _ _ (by decide) (by decide) (by decide) (by simp)]
    rw [e12 6 _ _ _ _ (by decide) (by decide) (by decide) (by simp)]
    rw [e13 4 _ _ _ _ (by decide) (by decide) (by decide) (by simp)]
    rw [e14 2 _ _ _ _ (by decide) (by decide) (by decide) (by simp)]
    rw [e15 0 _ _ _ _ (by decide) (by decide) (by decide) (by simp)]
    simp [parseLoop, List.replicate]
  · simp [Uuid.String, hexEncode, h45, p0, q0, p1, q1, p2, q2, p3, q3, p4, q4, p5, q5, p6, q6, p7, q7, p8, q8, p9, q9, p10, q10, p11, q11, p12, q12, p13, q13, p14, q14, p15, q15]

/-- The text that `String` prints for 16 bytes with a version from 1 to 5 is parsed back to
the same bytes. -/
theorem Parse_of_String (v text : List Nat) (hlen : v.length = 16) (hb : ∀ b ∈ v, b < 256)
    (n : Nat) (hn : Uuid.Version (some v) = some n) (hn1 : 1 ≤ n) (hn5 : n ≤ 5)
    (htext : Uuid.String (some v) = some text) :
    Parse text = some (some v, none) := by
  obtain ⟨b0, b1, b2, b3, b4, b5, b6, b7, b8, b9, b10, b11, b12, b13, b14, b15, rfl⟩ :=
    list_of_length_16 v hlen
  have hloop := parseLoop_String b0 b1 b2 b3 b4 b5 b6 b7 b8 b9 b10 b11 b12 b13 b14 b15 hb
  have hstr : Uuid.String (some [b0, b1, b2, b3, b4, b5, b6, b7, b8, b9, b10, b11, b12, b13,
      b14, b15]) = some
      [hexDigit (b0 / 16), hexDigit (b0 % 16), hexDigit (b1 / 16), hexDigit (b1 % 16),
       hexDigit (b2 / 16), hexDigit (b2 % 16), hexDigit (b3 / 16), hexDigit (b3 % 16), 45,
       hexDigit (b4 / 16), hexDigit (b4 % 16), hexDigit (b5 / 16), hexDigit (b5 % 16), 45,
       hexDigit (b6 / 16), hexDigit (b6 % 16), hexDigit (b7 / 16), hexDigit (b7 % 16), 45,
       hexDigit (b8 / 16), hexDigit (b8 % 16), hexDigit (b9 / 16), hexDigit (b9 % 16), 45,
       hexDigit (b10 / 16), hexDigit (b10 % 16), hexDigit (b11 / 16), hexDigit (b11 % 16),
       hexDigit (b12 / 16), hexDigit (b12 % 16), hexDigit (b13 / 16), hexDigit (b13 % 16),
       hexDigit (b14 / 16), hexDigit (b14 % 16), hexDigit (b15 / 16), hexDigit (b15 % 16)] := by
    simp [Uuid.String, hexEncode]
  rw [hstr] at htext
  injection htext with htext
  subst htext
  have hv : ¬ (n < 1 ∨ n > 5) := by omega
  simp only [Parse, List.length_cons, List.length_nil, Nat.reduceAdd, Nat.reduceEqDiff,
    false_and, if_false, ne_eq, not_true_eq_false, hloop, hn, hv]

theorem Parse_eq (s : List Nat) :
    Parse s =
      if s.length = 38 ∧ (s[0]? ≠ some 123 ∨ s[37]? ≠ some 125) then
        some (none, some Error.EINVAL)
      else if (stripBraces s).length ≠ 36 then some (none, some Error.EINVAL)
      else
        match parseLoop (stripBraces s).length (stripBraces s) 0 0 (List.replicate 16 0) with
        | none => none
        | some none => some (none, some Error.EINVAL)
        | some (some uuid) =>
          match Uuid.Version (some uuid) with
          | none => none
          | some version =>
            if version < 1 ∨ version > 5 then some (none, some Error.EINVAL)
            else some (some uuid, none) :=
  rfl

/-- What a successful `Parse` has gone through: the stripped string has 36 bytes, the loop
has ended with the bytes returned, and their version is from 1 to 5. -/
theorem Parse_ok_inv (s : List Nat) (u : Uuid) (h : Parse s = some (u, none)) :
    ∃ b n, u = some b ∧ (stripBraces s).length = 36 ∧
      parseLoop 36 (stripBraces s) 0 0 (List.replicate 16 0) = some (some b) ∧
      Uuid.Version (some b) = some n ∧ 1 ≤ n ∧ n ≤ 5 := by
  rw [Parse_eq] at h
  by_cases hA : s.length = 38 ∧ (s[0]? ≠ some 123 ∨ s[37]? ≠ some 125)
  · rw [if_pos hA] at h
    cases h
  rw [if_neg hA] at h
  by_cases h36 : (stripBraces s).length = 36
  swap
  · rw [if_pos h36] at h
    cases h
  rw [if_neg (fun hne => hne h36), h36] at h
  cases hl : parseLoop 36 (stripBraces s) 0 0 (List.replicate 16 0) with
  | none => rw [hl] at h; cases h
  | some r =>
    cases r with
    | none => rw [hl] at h; cases h
    | some b =>
      simp only [hl] at h
      cases hv : Uuid.Version (some b) with
      | none => simp only [hv] at h; cases h
      | some n =>
        simp only [hv] at h
        by_cases h3 : n < 1 ∨ n > 5
        · simp only [if_pos h3] at h
          cases h
        · simp only [if_neg h3, Option.some.injEq, Prod.mk.injEq, and_true] at h
          exact ⟨b, n, h.symm, h36, rfl, hv, by omega, by omega⟩

theorem good_of_Parse_ok (s : List Nat) (u : Uuid) (h : Parse s = some (u, none)) :
    ∀ k c, (stripBraces s)[k]? = some c →
      (IsDashIndex k → c = 45) ∧ (¬ IsDashIndex k → IsHexDigit c) := by
  intro k c hk
  have hmal : ¬ Malformed s := by
    intro hm
    rw [Parse_malformed s hm] at h
    simp at h
  constructor
  · intro hd
    by_contra hc
    exact hmal (Or.inr (Or.inr ⟨k, c, hk, Or.inl ⟨hd, hc⟩⟩))
  · intro hd
    by_contra hc
    exact hmal (Or.inr (Or.inr ⟨k, c, hk, Or.inr ⟨hd, hc⟩⟩))

/-- Claim C22: every string that `Parse` accepts yields a canonical value.  Whenever
`Parse(s)` returns `(u, nil)`, `u` has exactly 16 bytes, `1 <= u.Version() <= 5` (the high
nibble of byte 6), and `u.String()` is `s` without an enclosing pair of braces and with the
hexadecimal letters in lower case; and `Parse` of that canonical text returns `u` again, so
`Parse` does not depend on the case of the digits or on the braces. -/
theorem C22_parse_is_canonical (s : List Nat) (u : Uuid) (h : Parse s = some (u, none)) :
    ∃ b n, u = some b ∧ b.length = 16 ∧
      Uuid.Version u = some n ∧ 1 ≤ n ∧ n ≤ 5 ∧
      (∃ x, b[6]? = some x ∧ n = x >>> 4) ∧
      Uuid.String u = some ((stripBraces s).map lowerHex) ∧
      Parse ((stripBraces s).map lowerHex) = some (u, none) := by
  obtain ⟨b, n, rfl, h36, hloop, hv, hn1, hn5⟩ := Parse_ok_inv s u h
  have hgood := good_of_Parse_ok s (some b) h
  obtain ⟨c0, c1, c2, c3, c4, c5, c6, c7, c8, c9, c10, c11, c12, c13, c14, c15, c16, c17,
    c18, c19, c20, c21, c22, c23, c24, c25, c26, c27, c28, c29, c30, c31, c32, c33, c34, c35,
    hs⟩ := list_of_length_36 (stripBraces s) h36
  rw [hs] at hgood hloop ⊢
  obtain ⟨b1, hlen, hbytes, hloop1, hstr⟩ := parseLoop_canonical c0 c1 c2 c3 c4 c5 c6 c7 c8
    c9 c10 c11 c12 c13 c14 c15 c16 c17 c18 c19 c20 c21 c22 c23 c24 c25 c26 c27 c28 c29 c30
    c31 c32 c33 c34 c35 hgood
  rw [hloop1] at hloop
  simp only [Option.some.injEq] at hloop
  subst hloop
  have hx : ∃ x, b1[6]? = some x ∧ n = x >>> 4 := by
    have hv1 := hv
    simp only [Uuid.Version, hlen, ne_eq, not_true_eq_false, if_false] at hv1
    cases h6 : b1[6]? with
    | none => rw [h6] at hv1; cases hv1
    | some x =>
      rw [h6] at hv1
      simp only [Option.map_some', Option.some.injEq] at hv1
      exact ⟨x, rfl, hv1.symm⟩
  exact ⟨b1, n, rfl, hlen, hv, hn1, hn5, hx, hstr,
    Parse_of_String b1 _ hlen hbytes n hv hn1 hn5 hstr⟩

theorem C22_parse_is_canonical_witness :
    ∃ b n, (some [107, 167, 184, 16, 157, 173, 17, 209, 128, 180, 0, 192, 79, 212, 48, 200]
        : Uuid) = some b ∧ b.length = 16 ∧
      Uuid.Version (some [107, 167, 184, 16, 157, 173, 17, 209, 128, 180, 0, 192, 79, 212,
        48, 200]) = some n ∧ 1 ≤ n ∧ n ≤ 5 ∧
      (∃ x, b[6]? = some x ∧ n = x >>> 4) ∧
      Uuid.String (some [107, 167, 184, 16, 157, 173, 17, 209, 128, 180, 0, 192, 79, 212, 48,
        200]) = some ((stripBraces (ascii "{6BA7B810-9DAD-11D1-80B4-00C04FD430C8}")).map
          lowerHex) ∧
      Parse ((stripBraces (ascii "{6BA7B810-9DAD-11D1-80B4-00C04FD430C8}")).map lowerHex)
        = some (some [107, 167, 184, 16, 157, 173, 17, 209, 128, 180, 0, 192, 79, 212, 48,
            200], none) :=
  C22_parse_is_canonical (ascii "{6BA7B810-9DAD-11D1-80B4-00C04FD430C8}")
    (some [107, 167, 184, 16, 157, 173, 17, 209, 128, 180, 0, 192, 79, 212, 48, 200])
    (by decide)

end Custom
